import Mathlib

/-!
Verification development for the view-compilation core:
the template-to-view builder (`buildView` / `ViewBuilderVisitor`), the
per-view model (`CompileView`: local resolution, literal factories), and the
query tracker (`CompileQuery`).  The definitions below are shallow embeddings
of the TypeScript sources; collaborator modules that are not part of the
sources at hand (compile_element, compile_method, util, output_ast,
facade/collection, constants) are modelled from the specification where a
claim depends on them, and each such definition is marked
`Modelled from the spec:` in its doc comment.
-/

namespace ViewCompiler

/-! ## Output statement/expression AST

A platform-neutral intermediate AST mirroring the `o.*` (output_ast)
constructors that the compiled sources build.  The rewriting helpers of the
output_ast module itself are not among the sources; the two rewritten forms
that occur (`replaceVarInExpression` and `getPropertyInView`) are modelled
from the spec as explicit marker constructors (`replacedVar`, `scopedTo`). -/

mutual

inductive OExpr where
  | thisE : OExpr
  | nullE : OExpr
  | readVar (name : String) : OExpr
  | lit (value : String) : OExpr
  | litNat (value : Nat) : OExpr
  | importE (name : String) : OExpr
  | prop (receiver : OExpr) (name : String) : OExpr
  | key (receiver : OExpr) (index : OExpr) : OExpr
  | callMethod (receiver : OExpr) (method : String) (args : List OExpr) : OExpr
  | callFn (fn : OExpr) (args : List OExpr) : OExpr
  | literalArr (entries : List OExpr) : OExpr
  | literalMap (entries : List (String × OExpr)) : OExpr
  | writeProp (receiver : OExpr) (name : String) (value : OExpr) : OExpr
  | fnE (params : List String) (body : List OStmt) : OExpr
  /-- Modelled from the spec: result of `o.replaceVarInExpression` (output_ast
  module not among the sources) — `e` with each read of variable `name`
  replaced by `replacement`, kept as a marked node. -/
  | replacedVar (name : String) (replacement : OExpr) (e : OExpr) : OExpr
  /-- Modelled from the spec: result of `getPropertyInView` (view_compiler
  util module not among the sources) — `e` rewritten into an access
  expression that crosses `hops` declaration-view boundaries. -/
  | scopedTo (hops : Nat) (e : OExpr) : OExpr

inductive OStmt where
  | exprStmt (expr : OExpr) : OStmt
  | declStmt (name : String) (value : OExpr) : OStmt
  | ifStmt (cond : OExpr) (thenStmts : List OStmt) : OStmt
  | returnStmt (value : OExpr) : OStmt
  | classStmt (name : String) (fields : List (String × String))
      (createMethodBody : List OStmt) : OStmt

end

/-- Modelled from the spec: `getPropertyInView` rewrites a value defined in a
view reachable through `hops` declaration-element links into an access
expression relative to the chain distance traversed; distance zero returns
the expression unchanged (the calling view is the defining view). -/
def getPropertyInView (expr : OExpr) (hops : Nat) : OExpr :=
  if hops = 0 then expr else OExpr.scopedTo hops expr

/-! ## Directive / component metadata

The slice of `CompileDirectiveMetadata` that the compiled sources read:
`type.name`, `isComponent`, `type.isHost`, `hostAttributes`,
`entryComponents`, `template.encapsulation` (only whether it is `Native`),
and `template.ngContentSelectors.length`. -/

structure CompileDirectiveMetadata where
  name : String
  isComponent : Bool
  isHost : Bool
  hostAttributes : List (String × String)
  entryComponents : List String
  encapsulationNative : Bool
  ngContentCount : Nat
deriving Repr, DecidableEq

def CLASS_ATTR : String := "class"

def STYLE_ATTR : String := "style"

def NG_CONTAINER_TAG : String := "ng-container"

def IMPLICIT_TEMPLATE_VAR : String := "$implicit"

/-! ## Static attribute merging

`_readHtmlAttrs`, `_mergeHtmlAndDirectiveAttrs`, `mergeAttributeValue` and
`mapToKeyValueArray` from the builder.  A JavaScript string-keyed object is
modelled as an association list in key-insertion order: assignment to an
existing key updates the value in place, assignment to a fresh key appends
(`jsSet`), and `Object.keys` enumerates the list order. -/

def jsGet (m : List (String × String)) (k : String) : Option String :=
  match m with
  | [] => none
  | (k1, v1) :: rest => if k1 = k then some v1 else jsGet rest k

def jsSet (m : List (String × String)) (k v : String) : List (String × String) :=
  match m with
  | [] => [(k, v)]
  | (k1, v1) :: rest => if k1 = k then (k, v) :: rest else (k1, v1) :: jsSet rest k v

def _readHtmlAttrs (attrs : List (String × String)) : List (String × String) :=
  attrs.foldl (fun htmlAttrs a => jsSet htmlAttrs a.1 a.2) []

def mergeAttributeValue (attrName attrValue1 attrValue2 : String) : String :=
  if attrName = CLASS_ATTR ∨ attrName = STYLE_ATTR then
    attrValue1 ++ " " ++ attrValue2
  else
    attrValue2

/-- Modelled from the spec: `ListWrapper.sort` (facade/collection module not
among the sources) gives the entry array "an order sorted lexicographically
by attribute name for deterministic output". -/
def sortEntries (entryArray : List (String × String)) : List (String × String) :=
  List.insertionSort (fun a b => a.1 ≤ b.1) entryArray

def mapToKeyValueArray (data : List (String × String)) : List (String × String) :=
  sortEntries data

/-- One host-attribute entry merged into the accumulated result object:
`result[name] = isPresent(prevValue) ? mergeAttributeValue(name, prevValue,
value) : value`. -/
def mergeHostAttr (res : List (String × String)) (nv : String × String) :
    List (String × String) :=
  match jsGet res nv.1 with
  | some prevValue => jsSet res nv.1 (mergeAttributeValue nv.1 prevValue nv.2)
  | none => jsSet res nv.1 nv.2

/-- One directive's host-attribute pass: each `Object.keys` entry of
`hostAttributes` merged into the accumulated result object. -/
def mergeDirectiveAttrs (res : List (String × String))
    (d : CompileDirectiveMetadata) : List (String × String) :=
  d.hostAttributes.foldl mergeHostAttr res

/-- The result object starts as a copy of `declaredHtmlAttrs` (a JS object,
so an association list with distinct keys), then each directive's host
attributes are merged in declaration order. -/
def _mergeHtmlAndDirectiveAttrs (declaredHtmlAttrs : List (String × String))
    (directives : List CompileDirectiveMetadata) : List (String × String) :=
  mapToKeyValueArray (directives.foldl mergeDirectiveAttrs declaredHtmlAttrs)

/-! ## Compile nodes and the root/projection registration

`CompileNode`/`CompileElement` are modelled as one inductive carrying the
parent link; views are identified by their (unique) view index.  A `text`
or bound-text node has no source-AST `name` (the builder's cast
`(<ElementAst>node.sourceAst).name` yields `undefined` there, which is
never equal to `'ng-container'`), so `srcName` is an `Option`. -/

inductive ViewType where
  | COMPONENT : ViewType
  | HOST : ViewType
  | EMBEDDED : ViewType
deriving Repr, DecidableEq

inductive CompileNode where
  | nullNode : CompileNode
  | node (parent : CompileNode) (viewIdx : Nat) (nodeIndex : Nat)
      (srcName : Option String) (srcNgContentIndex : Option Nat)
      (renderNode : OExpr) (component : Option CompileDirectiveMetadata)
      (hasViewContainer : Bool) (isElement : Bool) : CompileNode

namespace CompileNode

def isNull : CompileNode → Bool
  | .nullNode => true
  | .node .. => false

def parentOf : CompileNode → CompileNode
  | .nullNode => .nullNode
  | .node p _ _ _ _ _ _ _ _ => p

/-- `node.view`, as the owning view's index (`none` for the null element,
whose `view` is null). -/
def viewOf : CompileNode → Option Nat
  | .nullNode => none
  | .node _ v _ _ _ _ _ _ _ => some v

def nodeIndexOf : CompileNode → Nat
  | .nullNode => 0
  | .node _ _ i _ _ _ _ _ _ => i

def srcNameOf : CompileNode → Option String
  | .nullNode => none
  | .node _ _ _ sn _ _ _ _ _ => sn

def srcNgContentIndexOf : CompileNode → Option Nat
  | .nullNode => none
  | .node _ _ _ _ ci _ _ _ _ => ci

def renderNodeOf : CompileNode → OExpr
  | .nullNode => .nullE
  | .node _ _ _ _ _ rn _ _ _ => rn

def componentOf : CompileNode → Option CompileDirectiveMetadata
  | .nullNode => none
  | .node _ _ _ _ _ _ c _ _ => c

def hasViewContainerOf : CompileNode → Bool
  | .nullNode => false
  | .node _ _ _ _ _ _ _ hvc _ => hvc

def isElementOf : CompileNode → Bool
  | .nullNode => false
  | .node _ _ _ _ _ _ _ _ isEl => isEl

end CompileNode

/-- Modelled from the spec: `CompileElement.appElement` (compile_element
module not among the sources) — the generated app-element storage slot of
the element at `nodeIndex`. -/
def appElementExpr (nodeIndex : Nat) : OExpr :=
  OExpr.prop OExpr.thisE ("_appEl_" ++ toString nodeIndex)

def _isNgContainer (node : CompileNode) (view : Option Nat) : Bool :=
  ¬ node.isNull && node.srcNameOf == some NG_CONTAINER_TAG && node.viewOf == view

/-- The loop of `_getOuterContainerOrSelf`, with the walked node's view
fixed at entry: walks up while the direct parent is an `ng-container` of
that same view. -/
def outerContainerGo (view : Option Nat) : CompileNode → CompileNode
  | .nullNode => .nullNode
  | .node p v i sn ci rn c hvc isEl =>
    if _isNgContainer p view then outerContainerGo view p
    else .node p v i sn ci rn c hvc isEl

def _getOuterContainerOrSelf (node : CompileNode) : CompileNode :=
  outerContainerGo node.viewOf node

/-- The loop of `_getOuterContainerParentOrSelf`: walks up while the node
itself is an `ng-container` of the view fixed at entry. -/
def outerContainerParentGo (view : Option Nat) : CompileNode → CompileNode
  | .nullNode => .nullNode
  | .node p v i sn ci rn c hvc isEl =>
    if _isNgContainer (.node p v i sn ci rn c hvc isEl) view then
      outerContainerParentGo view p
    else .node p v i sn ci rn c hvc isEl

def _getOuterContainerParentOrSelf (el : CompileNode) : CompileNode :=
  outerContainerParentGo el.viewOf el

/-- `parent.view !== this.view` for the visitor owning view `viewIdx`. -/
def _isRootNode (viewIdx : Nat) (parent : CompileNode) : Bool :=
  parent.viewOf != some viewIdx

/-- The effect of `_addRootNodeAndProject` on the mutable state: either a
push onto `view.rootNodesOrAppElements`, an `addContentNode` on the parent
element (identified by owning view and node index), or nothing. -/
inductive RegAction where
  | pushRoot (e : OExpr) : RegAction
  | addContent (targetViewIdx targetNodeIndex ngContentIndex : Nat) (e : OExpr) : RegAction
  | skip : RegAction

/-- `vcAppEl || node.renderNode`: the unit that gets registered. -/
def registeredUnit (node : CompileNode) : OExpr :=
  if node.isElementOf && node.hasViewContainerOf then appElementExpr node.nodeIndexOf
  else node.renderNodeOf

def _addRootNodeAndProject (viewIdx : Nat) (viewType : ViewType)
    (node : CompileNode) : RegAction :=
  let projectedNode := _getOuterContainerOrSelf node
  let parent := projectedNode.parentOf
  let ngContentIndex := projectedNode.srcNgContentIndexOf
  if _isRootNode viewIdx parent then
    -- store appElement as root node only for ViewContainers
    if viewType ≠ ViewType.COMPONENT then RegAction.pushRoot (registeredUnit node)
    else RegAction.skip
  else
    match parent.componentOf, ngContentIndex with
    | some _, some k =>
      RegAction.addContent (parent.viewOf.getD 0) parent.nodeIndexOf k (registeredUnit node)
    | _, _ => RegAction.skip

/-- `parentRenderNodeVar` / `rootSelectorVar`. -/
def parentRenderNodeVar : OExpr := OExpr.readVar "parentRenderNode"

def rootSelectorVar : OExpr := OExpr.readVar "rootSelector"

/-- Modelled from the spec: `ViewProperties.renderer` (constants module not
among the sources) — the view's renderer property. -/
def rendererExpr : OExpr := OExpr.prop OExpr.thisE "renderer"

/-- Modelled from the spec: `ViewProperties.projectableNodes` (constants
module not among the sources). -/
def projectableNodesExpr : OExpr := OExpr.prop OExpr.thisE "projectableNodes"

def _getParentRenderNode (viewIdx : Nat) (viewType : ViewType)
    (parent : CompileNode) : OExpr :=
  let parent := _getOuterContainerParentOrSelf parent
  if _isRootNode viewIdx parent then
    if viewType = ViewType.COMPONENT then parentRenderNodeVar
    else
      -- root node of an embedded/host view
      OExpr.nullE
  else
    match parent.componentOf with
    | some comp => if ¬ comp.encapsulationNative then OExpr.nullE else parent.renderNodeOf
    | none => parent.renderNodeOf

/-! ## The template AST and the view builder

The input `TemplateAst` variants that generate code (text, bound text,
element, embedded template, content projection) plus one constructor
standing for all the no-op kinds (attribute, directive, event, reference,
variable and property-binding nodes, whose visit methods return null).
`ElementAst.directives` carry `DirectiveAst` records whose only field the
builder reads is `.directive`; the model stores the metadata directly. -/

mutual

inductive TemplateAst where
  | text (value : String) (ngContentIndex : Option Nat) : TemplateAst
  | boundText (ngContentIndex : Option Nat) : TemplateAst
  | element (name : String) (attrs : List (String × String))
      (directives : List CompileDirectiveMetadata) (ngContentIndex : Option Nat)
      (hasViewContainer : Bool) (children : TemplateAsts) : TemplateAst
  | embeddedTemplate (templateVars : List (String × String))
      (directives : List CompileDirectiveMetadata) (ngContentIndex : Option Nat)
      (hasViewContainer : Bool) (children : TemplateAsts) : TemplateAst
  | ngContent (index : Nat) (ngContentIndex : Option Nat) : TemplateAst
  | otherAst : TemplateAst

inductive TemplateAsts where
  | nil : TemplateAsts
  | cons (head : TemplateAst) (tail : TemplateAsts) : TemplateAsts

end

inductive NodeKind where
  | textNode : NodeKind
  | elementNode : NodeKind
  | anchorNode : NodeKind
deriving Repr, DecidableEq

/-- The per-node record kept on `view.nodes` (the slice of
`CompileNode`/`CompileElement` that the finished view reads). -/
structure CNode where
  nodeIndex : Nat
  kind : NodeKind
  renderNode : OExpr

/-! A finished View Model (`CompileView` after `buildView`): nesting index,
view kind, template-local bindings, node list, generated fields, the
create-method buffer, root nodes/app-elements, and the embedded views owned
by its template anchors in visitation order. -/

mutual

inductive CView where
  | mk (viewIndex : Nat) (viewType : ViewType)
      (templateVariableBindings : List (String × String))
      (nodes : List CNode) (fields : List (String × String))
      (createStmts : List OStmt) (rootNodesOrAppElements : List OExpr)
      (children : CViews) : CView

inductive CViews where
  | nil : CViews
  | cons (v : CView) (rest : CViews) : CViews

end

def CViews.ofList : List CView → CViews
  | [] => .nil
  | v :: rest => .cons v (CViews.ofList rest)

namespace CView

def viewIndexOf : CView → Nat
  | .mk vi _ _ _ _ _ _ _ => vi

def viewTypeOf : CView → ViewType
  | .mk _ vt _ _ _ _ _ _ => vt

def nodesOf : CView → List CNode
  | .mk _ _ _ ns _ _ _ _ => ns

def fieldsOf : CView → List (String × String)
  | .mk _ _ _ _ fs _ _ _ => fs

def createStmtsOf : CView → List OStmt
  | .mk _ _ _ _ _ cs _ _ => cs

def rootNodesOf : CView → List OExpr
  | .mk _ _ _ _ _ _ rs _ => rs

def childrenOf : CView → CViews
  | .mk _ _ _ _ _ _ _ ch => ch

end CView

/-! The view indices of a view and all its transitively embedded views, in
creation (preorder) order, and the flat list of those views. -/

mutual

def subtreeIndices : CView → List Nat
  | .mk vi _ _ _ _ _ _ ch => vi :: subtreeIndicesList ch

def subtreeIndicesList : CViews → List Nat
  | .nil => []
  | .cons v rest => subtreeIndices v ++ subtreeIndicesList rest

end

mutual

def allViews : CView → List CView
  | .mk vi vt tvb ns fs cs rs ch => .mk vi vt tvb ns fs cs rs ch :: allViewsList ch

def allViewsList : CViews → List CView
  | .nil => []
  | .cons v rest => allViews v ++ allViewsList rest

end

/-- Cross-view dependency records accumulated by the builder. -/
inductive Dep where
  | ViewFactoryDependency (compName placeholderName : String) : Dep
  | ComponentFactoryDependency (compName placeholderName : String) : Dep
deriving Repr, DecidableEq

/-- One pending `parent.addContentNode(ngContentIndex, expr)` registration,
addressed to the element with the given owning view and node index
(`CompileElement.contentNodesByNgContentIndex` is in the compile_element
module, which is not among the sources; the spec describes it as "a map
from content-projection index to the list of projected node references"). -/
structure ContentReg where
  targetViewIdx : Nat
  targetNodeIndex : Nat
  ngContentIndex : Nat
  value : OExpr

/-- The mutable state of one `ViewBuilderVisitor` together with the view it
populates: node list, field list, create-method buffer, root-node list,
pending content-projection registrations, finished embedded views,
`nestedViewCount`, and the shared `targetDependencies` array. -/
structure BState where
  nodes : List CNode
  fields : List (String × String)
  createStmts : List OStmt
  rootNodesOrAppElements : List OExpr
  contentRegs : List ContentReg
  childViews : List CView
  nestedViewCount : Nat
  targetDependencies : List Dep

def initialBState (targetDependencies : List Dep) : BState :=
  ⟨[], [], [], [], [], [], 0, targetDependencies⟩

/-- The visitor's per-view constants: the compiled component's metadata, the
view's nesting index, and its kind. -/
structure BuildCtx where
  component : CompileDirectiveMetadata
  viewIndex : Nat
  viewType : ViewType

def getViewType (component : CompileDirectiveMetadata)
    (embeddedTemplateIndex : Nat) : ViewType :=
  if embeddedTemplateIndex > 0 then ViewType.EMBEDDED
  else if component.isHost then ViewType.HOST
  else ViewType.COMPONENT

/-- Modelled from the spec: `CompileMethod.resetDebugInfoExpr`
(compile_method module not among the sources); in the non-debug
configuration modelled here it contributes the null expression. -/
def resetDebugInfoExpr (_nodeIndex : Nat) : OExpr :=
  OExpr.nullE

/-- Modelled from the spec: `getViewFactoryName` (view_compiler util module
not among the sources) — the generated factory's name for a component view
at the given embedded-template index. -/
def getViewFactoryName (compName : String) (embeddedTemplateIndex : Nat) : String :=
  "viewFactory_" ++ compName ++ toString embeddedTemplateIndex

/-- Modelled from the spec: `ViewProperties.viewUtils` (constants module not
among the sources). -/
def viewUtilsExpr : OExpr := OExpr.prop OExpr.thisE "viewUtils"

/-- Modelled from the spec: `CompileElement.injector` (compile_element
module not among the sources) — the injector lookup at the element's node
index. -/
def injectorExpr (nodeIndex : Nat) : OExpr :=
  OExpr.callMethod OExpr.thisE "injector" [OExpr.litNat nodeIndex]

/-- Modelled from the spec: `CompileElement.getComponent()` (compile_element
module not among the sources) — the component instance stored for the
element. -/
def getComponentExpr (compName : String) (nodeIndex : Nat) : OExpr :=
  OExpr.prop OExpr.thisE ("_" ++ compName ++ "_" ++ toString nodeIndex)

/-- Modelled from the spec: `createFlatArray` (view_compiler util module not
among the sources) — flattens a projection bucket's node expressions into
one array expression. -/
def createFlatArray (values : List OExpr) : OExpr :=
  OExpr.literalArr values

def applyRegAction (st : BState) : RegAction → BState
  | .pushRoot e =>
    { st with rootNodesOrAppElements := st.rootNodesOrAppElements ++ [e] }
  | .addContent tv tn k e =>
    { st with contentRegs := st.contentRegs ++ [⟨tv, tn, k, e⟩] }
  | .skip => st

def setElementAttributeStmt (renderNode : OExpr) (attrName attrValue : String) : OStmt :=
  OStmt.exprStmt (OExpr.callMethod rendererExpr "setElementAttribute"
    [renderNode, OExpr.lit attrName, OExpr.lit attrValue])

/-- The attribute-emission loop of `visitElement`: one `setElementAttribute`
statement per merged attribute, skipped entirely when the element is an
`ng-container` anchor (those are not rendered in the DOM). -/
def elementSetAttrStmts (renderNode : OExpr) (astName : String)
    (attrNameAndValues : List (String × String)) : List OStmt :=
  attrNameAndValues.foldl
    (fun acc nv =>
      if astName ≠ NG_CONTAINER_TAG then
        acc ++ [setElementAttributeStmt renderNode nv.1 nv.2]
      else acc)
    []

/-- `_visitText` (also serving `visitText` with the literal value and
`visitBoundText` with the empty string). -/
def _visitText (ctx : BuildCtx) (value : String) (ngContentIndex : Option Nat)
    (parent : CompileNode) (st : BState) : BState :=
  let fieldName := "_text_" ++ toString st.nodes.length
  let renderNode := OExpr.prop OExpr.thisE fieldName
  let compileNode := CompileNode.node parent ctx.viewIndex st.nodes.length
    none ngContentIndex renderNode none false false
  let createRenderNode := OStmt.exprStmt (OExpr.writeProp OExpr.thisE fieldName
    (OExpr.callMethod rendererExpr "createText"
      [_getParentRenderNode ctx.viewIndex ctx.viewType parent, OExpr.lit value,
       resetDebugInfoExpr st.nodes.length]))
  let st := { st with
    nodes := st.nodes ++ [⟨st.nodes.length, NodeKind.textNode, renderNode⟩],
    fields := st.fields ++ [(fieldName, "renderText")],
    createStmts := st.createStmts ++ [createRenderNode] }
  applyRegAction st (_addRootNodeAndProject ctx.viewIndex ctx.viewType compileNode)

/-- `visitNgContent`: the projected nodes originate from a different view;
no `CompileNode` is created.  (`resetDebugInfo` contributes nothing in the
non-debug configuration modelled here.) -/
def visitNgContent (ctx : BuildCtx) (index : Nat) (ngContentIndex : Option Nat)
    (parent : CompileNode) (st : BState) : BState :=
  let parentRenderNode := _getParentRenderNode ctx.viewIndex ctx.viewType parent
  let nodesExpression := OExpr.key projectableNodesExpr (OExpr.litNat index)
  match parentRenderNode with
  | OExpr.nullE =>
    if _isRootNode ctx.viewIndex parent then
      if ctx.viewType ≠ ViewType.COMPONENT then
        -- store root nodes only for embedded/host views
        { st with rootNodesOrAppElements := st.rootNodesOrAppElements ++ [nodesExpression] }
      else st
    else
      match parent.componentOf, ngContentIndex with
      | some _, some k =>
        { st with contentRegs := st.contentRegs ++
            [⟨parent.viewOf.getD 0, parent.nodeIndexOf, k, nodesExpression⟩] }
      | _, _ => st
  | pn =>
    { st with createStmts := st.createStmts ++
        [OStmt.exprStmt (OExpr.callMethod rendererExpr "projectNodes"
          [pn, OExpr.callFn (OExpr.importE "flattenNestedViewRenderNodes")
            [nodesExpression]])] }

def assembleView (ctx : BuildCtx) (templateVariableBindings : List (String × String))
    (st : BState) : CView :=
  CView.mk ctx.viewIndex ctx.viewType templateVariableBindings st.nodes st.fields
    st.createStmts st.rootNodesOrAppElements (CViews.ofList st.childViews)

/-- The render-node creation call of `visitElement`: node 0 of a host view
selects-or-creates the root element, `ng-container` elements get a
template anchor, all others a generic `createElement` call. -/
def visitElementCreateExpr (ctx : BuildCtx) (nodeIndex : Nat) (name : String)
    (parent : CompileNode) : OExpr :=
  let debugContextExpr := resetDebugInfoExpr nodeIndex
  if nodeIndex == 0 && ctx.viewType == ViewType.HOST then
    OExpr.callMethod OExpr.thisE "selectOrCreateHostElement"
      [OExpr.lit name, rootSelectorVar, debugContextExpr]
  else if name == NG_CONTAINER_TAG then
    OExpr.callMethod rendererExpr "createTemplateAnchor"
      [_getParentRenderNode ctx.viewIndex ctx.viewType parent, debugContextExpr]
  else
    OExpr.callMethod rendererExpr "createElement"
      [_getParentRenderNode ctx.viewIndex ctx.viewType parent, OExpr.lit name,
       debugContextExpr]

/-- The part of `visitElement` before the children are visited: field
allocation, render-node creation and attribute statements, the node-list
push, the component's factory dependencies and `compView_N` declaration
(when one of the directives is a component — the accompanying
`createComponentFactoryResolver`, `setComponentView` and `beforeChildren`
calls mutate the element record only, in the compile_element module, which
is not among the sources), and the root/projection registration. -/
def visitElementPre (ctx : BuildCtx) (name : String)
    (attrs : List (String × String))
    (directives : List CompileDirectiveMetadata) (ngContentIndex : Option Nat)
    (hasViewContainer : Bool) (parent : CompileNode) (st : BState) : BState :=
  let nodeIndex := st.nodes.length
  let createRenderNodeExpr := visitElementCreateExpr ctx nodeIndex name parent
  let fieldName := "_el_" ++ toString nodeIndex
  let renderNode := OExpr.prop OExpr.thisE fieldName
  let component := directives.find? (fun directive => directive.isComponent)
  let htmlAttrs := _readHtmlAttrs attrs
  let attrNameAndValues := _mergeHtmlAndDirectiveAttrs htmlAttrs directives
  let st := { st with
    fields := st.fields ++ [(fieldName, "renderElement")],
    createStmts := st.createStmts
      ++ [OStmt.exprStmt (OExpr.writeProp OExpr.thisE fieldName createRenderNodeExpr)]
      ++ elementSetAttrStmts renderNode name attrNameAndValues }
  let compileElement := CompileNode.node parent ctx.viewIndex nodeIndex (some name)
    ngContentIndex renderNode component hasViewContainer true
  let st := { st with nodes := st.nodes ++ [CNode.mk nodeIndex NodeKind.elementNode renderNode] }
  let st :=
    match component with
    | some comp =>
      let nestedComponentIdentifier := getViewFactoryName comp.name 0
      { st with
        targetDependencies := st.targetDependencies
          ++ [Dep.ViewFactoryDependency comp.name nestedComponentIdentifier]
          ++ comp.entryComponents.map
              (fun entryComponent =>
                Dep.ComponentFactoryDependency entryComponent entryComponent),
        createStmts := st.createStmts
          ++ [OStmt.declStmt ("compView_" ++ toString nodeIndex)
                (OExpr.callFn (OExpr.importE nestedComponentIdentifier)
                  [viewUtilsExpr, injectorExpr nodeIndex, appElementExpr nodeIndex])] }
    | none => st
  applyRegAction st (_addRootNodeAndProject ctx.viewIndex ctx.viewType compileElement)

/-- The part of `visitElement` after the children are visited: when the
element hosts a component, the nested view's `create` call with the
flattened content-projection buckets (or the pass-through projectable
nodes for the host wrapper). -/
def visitElementPost (ctx : BuildCtx)
    (component : Option CompileDirectiveMetadata) (nodeIndex : Nat)
    (st : BState) : BState :=
  match component with
  | some comp =>
    let codeGenContentNodes :=
      if ctx.component.isHost then projectableNodesExpr
      else OExpr.literalArr ((List.range comp.ngContentCount).map
        (fun k => createFlatArray ((st.contentRegs.filter
            (fun r => r.targetViewIdx == ctx.viewIndex
              && r.targetNodeIndex == nodeIndex && r.ngContentIndex == k)).map
          (fun r => r.value))))
    { st with createStmts := st.createStmts
        ++ [OStmt.exprStmt (OExpr.callMethod
              (OExpr.readVar ("compView_" ++ toString nodeIndex)) "create"
              [getComponentExpr comp.name nodeIndex, codeGenContentNodes,
               OExpr.nullE])] }
  | none => st

/-- The part of `visitEmbeddedTemplate` before the child view is built:
anchor field allocation, anchor creation statement, and the node-list
push. -/
def visitEmbeddedPre (ctx : BuildCtx) (parent : CompileNode) (st : BState) : BState :=
  let nodeIndex := st.nodes.length
  let fieldName := "_anchor_" ++ toString nodeIndex
  let renderNode := OExpr.prop OExpr.thisE fieldName
  let st := { st with
    fields := st.fields ++ [(fieldName, "renderComment")],
    createStmts := st.createStmts
      ++ [OStmt.exprStmt (OExpr.writeProp OExpr.thisE fieldName
            (OExpr.callMethod rendererExpr "createTemplateAnchor"
              [_getParentRenderNode ctx.viewIndex ctx.viewType parent,
               resetDebugInfoExpr nodeIndex]))] }
  { st with nodes := st.nodes ++ [CNode.mk nodeIndex NodeKind.anchorNode renderNode] }

mutual

/-- `templateVisitAll` over the visitor: folds `visitAst` left-to-right. -/
def templateVisitAll (ctx : BuildCtx) (asts : TemplateAsts) (parent : CompileNode)
    (st : BState) : BState :=
  match asts with
  | .nil => st
  | .cons a rest => templateVisitAll ctx rest parent (visitAst ctx a parent st)

/-- The visitor dispatch: `visitText`/`visitBoundText` (via `_visitText`),
`visitElement`, `visitEmbeddedTemplate`, `visitNgContent`, and the no-op
visit methods. -/
def visitAst (ctx : BuildCtx) (ast : TemplateAst) (parent : CompileNode)
    (st : BState) : BState :=
  match ast with
  | .text value ngContentIndex => _visitText ctx value ngContentIndex parent st
  | .boundText ngContentIndex => _visitText ctx "" ngContentIndex parent st
  | .ngContent index ngContentIndex => visitNgContent ctx index ngContentIndex parent st
  | .otherAst => st
  | .element name attrs directives ngContentIndex hasViewContainer children =>
    -- visitElement: stages before the children, the recursion into the
    -- children with this element as parent, and the stage after
    -- (compileElement.beforeChildren()/afterChildren(n) concern provider
    -- wiring on the element record, in the compile_element module, which
    -- is not among the sources)
    let nodeIndex := st.nodes.length
    let renderNode := OExpr.prop OExpr.thisE ("_el_" ++ toString nodeIndex)
    let component := directives.find? (fun directive => directive.isComponent)
    let compileElement := CompileNode.node parent ctx.viewIndex nodeIndex (some name)
      ngContentIndex renderNode component hasViewContainer true
    visitElementPost ctx component nodeIndex
      (templateVisitAll ctx children compileElement
        (visitElementPre ctx name attrs directives ngContentIndex hasViewContainer
          parent st))
  | .embeddedTemplate templateVars _directives ngContentIndex hasViewContainer children =>
    -- visitEmbeddedTemplate (the directive list is stored on the element
    -- record only; nothing later in the builder reads it)
    let nodeIndex := st.nodes.length
    let renderNode := OExpr.prop OExpr.thisE ("_anchor_" ++ toString nodeIndex)
    let templateVariableBindings := templateVars.map
      (fun varAst => (if varAst.1.length > 0 then varAst.1 else IMPLICIT_TEMPLATE_VAR, varAst.2))
    let compileElement := CompileNode.node parent ctx.viewIndex nodeIndex none
      ngContentIndex renderNode none hasViewContainer true
    let st := visitEmbeddedPre ctx parent st
    let nestedViewCount := st.nestedViewCount + 1
    let childViewIndex := ctx.viewIndex + nestedViewCount
    let childCtx : BuildCtx :=
      ⟨ctx.component, childViewIndex, getViewType ctx.component childViewIndex⟩
    -- buildView(embeddedView, ast.children, this.targetDependencies),
    -- inlined: the embedded view's declaration element is compileElement
    -- (not null), so the initial parent is compileElement.parent; the child
    -- visitor starts from a fresh state sharing targetDependencies
    let childSt := templateVisitAll childCtx children parent
      (initialBState st.targetDependencies)
    let embeddedView := assembleView childCtx templateVariableBindings childSt
    let st := { st with
      nestedViewCount := nestedViewCount + childSt.nestedViewCount,
      targetDependencies := childSt.targetDependencies,
      childViews := st.childViews ++ [embeddedView] }
    applyRegAction st (_addRootNodeAndProject ctx.viewIndex ctx.viewType compileElement)

end

/-- `buildView`: runs a fresh `ViewBuilderVisitor` over the template with
the initial parent `view.declarationElement.isNull() ?
view.declarationElement : view.declarationElement.parent`, and leaves the
visitor's final state (whose `nestedViewCount` is the function's return
value). -/
def buildView (ctx : BuildCtx) (template : TemplateAsts)
    (declarationElement : CompileNode) (targetDependencies : List Dep) : BState :=
  templateVisitAll ctx template
    (if declarationElement.isNull then declarationElement else declarationElement.parentOf)
    (initialBState targetDependencies)

/-- Building a component's root view (nesting index 0, null declaration
element): the assembled view tree, `buildView`'s returned nested-view
count, and the accumulated dependency records. -/
def buildComponentView (component : CompileDirectiveMetadata)
    (template : TemplateAsts) : CView × Nat × List Dep :=
  let ctx : BuildCtx := ⟨component, 0, getViewType component 0⟩
  let st := buildView ctx template CompileNode.nullNode []
  (assembleView ctx [] st, st.nestedViewCount, st.targetDependencies)

/-! ## Finishing a view tree

`finishView` walks the built view tree: it emits the view's top-level
statements, then recurses into each node's embedded view in node order.
The class assembly is modelled at the depth the builder tracks: the
non-debug configuration (no static node-debug-info table), no view
queries, and only the create method's buffer among the lifecycle buffers
(the others are populated by binding compilation, outside the builder). -/

/-- `generateCreateMethod`: the parent-render-node preamble for component
views, the create-method buffer, the `init` call, and the result return
(a host view returns its single root element's app-element).  Disposables
and subscriptions come from event bindings, which are outside the builder,
so those lists are empty here. -/
def generateCreateMethod (v : CView) : List OStmt :=
  (if v.viewTypeOf = ViewType.COMPONENT then
    [OStmt.declStmt "parentRenderNode"
      (OExpr.callMethod rendererExpr "createViewRoot"
        [OExpr.prop (OExpr.prop OExpr.thisE "declarationAppElement") "nativeElement"])]
  else [])
  ++ v.createStmtsOf
  ++ [OStmt.exprStmt (OExpr.callMethod OExpr.thisE "init"
        [createFlatArray v.rootNodesOf,
         OExpr.literalArr (v.nodesOf.map CNode.renderNode),
         OExpr.literalArr [], OExpr.literalArr []]),
      OStmt.returnStmt (if v.viewTypeOf = ViewType.HOST then appElementExpr 0 else OExpr.nullE)]

/-- `createViewTopLevelStmts`: the shared render-component-type declaration
(first view only), the view class, and its factory function. -/
def createViewTopLevelStmts (compName : String) (v : CView) : List OStmt :=
  (if v.viewIndexOf == 0 then
    [OStmt.declStmt ("renderType_" ++ compName) OExpr.nullE]
  else [])
  ++ [OStmt.classStmt ("_View_" ++ compName ++ toString v.viewIndexOf) v.fieldsOf
        (generateCreateMethod v),
      OStmt.declStmt (getViewFactoryName compName v.viewIndexOf)
        (OExpr.fnE ["viewUtils", "parentInjector", "declarationEl"]
          [OStmt.returnStmt (OExpr.callFn
            (OExpr.readVar ("_View_" ++ compName ++ toString v.viewIndexOf))
            [OExpr.readVar "viewUtils", OExpr.readVar "parentInjector",
             OExpr.readVar "declarationEl"])])]

mutual

/-- `finishView`: `view.afterNodes()` (which finalizes view queries and
contributes nothing for the query-free components tracked here), the
view's top-level statements, then each embedded view in node order. -/
def finishView (compName : String) (v : CView) (targetStatements : List OStmt) : List OStmt :=
  let target := targetStatements ++ createViewTopLevelStmts compName v
  match v with
  | .mk _ _ _ _ _ _ _ children => finishViewList compName children target

def finishViewList (compName : String) (vs : CViews) (targetStatements : List OStmt) : List OStmt :=
  match vs with
  | .nil => targetStatements
  | .cons v rest => finishViewList compName rest (finishView compName v targetStatements)

end

/-- One full compilation: `buildView` on the root view followed by
`finishView`, as the view compiler drives them. -/
def compileComponent (component : CompileDirectiveMetadata)
    (template : TemplateAsts) : List OStmt × Nat × List Dep :=
  let built := buildComponentView component template
  (finishView component.name built.1 [], built.2.1, built.2.2)

/-! ## The query tracker (`CompileQuery`)

`ViewQueryValues` trees are modelled by `QueryValue`/`QVals`; a nested node
stores the data that `addValue` and `createQueryValues` read off the nested
view: its identity, its class name, and its declaration element's
app-element.  Views, for the query walk, are chains of declaration
elements (`QView`). -/

mutual

inductive QueryValue where
  | exprV (e : OExpr) : QueryValue
  | nestedV (viewIdx : Nat) (className : String) (declAppEl : OExpr)
      (values : QVals) : QueryValue

inductive QVals where
  | nil : QVals
  | cons (head : QueryValue) (tail : QVals) : QVals

end

def QVals.append : QVals → QVals → QVals
  | .nil, ys => ys
  | .cons x xs, ys => .cons x (QVals.append xs ys)

def QVals.push (xs : QVals) (x : QueryValue) : QVals :=
  QVals.append xs (.cons x .nil)

def QVals.getLast? : QVals → Option QueryValue
  | .nil => none
  | .cons x .nil => some x
  | .cons _ (.cons y ys) => QVals.getLast? (.cons y ys)

def QVals.dropLast : QVals → QVals
  | .nil => .nil
  | .cons _ .nil => .nil
  | .cons x (.cons y ys) => .cons x (QVals.dropLast (.cons y ys))

/-- A view on the declaration-element chain used by the query walk:
identity, generated class name, and (for nested views) the declaration
element together with its owning view.  `top` stands for a view whose
declaration element is the null element (`declarationElement.view` null). -/
inductive QView where
  | top (idx : Nat) (className : String) : QView
  | nested (idx : Nat) (className : String) (declAppEl : OExpr)
      (parent : QView) : QView

def QView.idxOf : QView → Nat
  | .top i _ => i
  | .nested i _ _ _ => i

/-- One hop of the `addValue` walk: the declaration element
(`elPath` entry), remembered with its `embeddedView`'s identity, class
name and app-element. -/
structure PathStep where
  childViewIdx : Nat
  childClassName : String
  declAppEl : OExpr

/-- The `while` walk of `addValue`: from the originating view up the
declaration-element chain until the query's owning view, collecting the
declaration elements outermost-first (`unshift`).  Walking past a `top`
view pushes its null declaration element (whose view is null, ending the
loop); that entry carries no data. -/
def elPathGo (ownerIdx : Nat) : QView → List PathStep
  | .top i _ => if i = ownerIdx then [] else [⟨0, "", OExpr.nullE⟩]
  | .nested i cn app p =>
    if i = ownerIdx then [] else elPathGo ownerIdx p ++ [⟨i, cn, app⟩]

/-- The `elPath.forEach` tree walk of `addValue`: reuse the last child
subtree when it belongs to the same nested view, otherwise start a new
one; append the value at the leaf. -/
def insertPath : List PathStep → QVals → OExpr → QVals
  | [], values, value => values.push (.exprV value)
  | step :: rest, values, value =>
    match values.getLast? with
    | some (.nestedV vi cn app inner) =>
      if vi = step.childViewIdx then
        (values.dropLast).push (.nestedV vi cn app (insertPath rest inner value))
      else
        values.push (.nestedV step.childViewIdx step.childClassName step.declAppEl
          (insertPath rest .nil value))
    | _ =>
      values.push (.nestedV step.childViewIdx step.childClassName step.declAppEl
        (insertPath rest .nil value))

structure CompileQueryMeta where
  first : Bool
  propertyName : String
deriving Repr, DecidableEq

/-- The `CompileQuery` state: metadata, the query-list expression, the
optional owning-directive expression, the owning view's identity, and the
collected `ViewQueryValues` tree. -/
structure CompileQuery where
  meta : CompileQueryMeta
  queryList : OExpr
  ownerDirectiveExpression : Option OExpr
  viewIdx : Nat
  values : QVals

/-- `CompileQuery.addValue`: walks the declaration chain, inserts the value
into the tree, and returns the updated query together with the statements
appended to the originating view's `dirtyParentQueriesMethod`. -/
def addValue (q : CompileQuery) (value : OExpr) (view : QView) :
    CompileQuery × List OStmt :=
  let elPath := elPathGo q.viewIdx view
  let queryListForDirtyExpr := getPropertyInView q.queryList elPath.length
  let newValues := insertPath elPath q.values value
  let stmts :=
    if elPath.length > 0 then
      [OStmt.exprStmt (OExpr.callMethod queryListForDirtyExpr "setDirty" [])]
    else []
  ({ q with values := newValues }, stmts)

/-- `mapNestedViews`: one "map over nested view instances" call on the
nested view's declaration app-element, wrapping the flattened values in a
per-instance function whose parameter replaces the implicit receiver. -/
def mapNestedViews (declarationAppElement : OExpr) (className : String)
    (expressions : List OExpr) : OExpr :=
  let adjustedExpressions := expressions.map
    (fun expr => OExpr.replacedVar "this" (OExpr.readVar "nestedView") expr)
  OExpr.callMethod declarationAppElement "mapNestedViews"
    [OExpr.readVar className,
     OExpr.fnE ["nestedView"]
       [OStmt.returnStmt (OExpr.literalArr adjustedExpressions)]]

mutual

/-- `createQueryValues`: flattens the tree, expanding each nested-view
subtree into a `mapNestedViews` call. -/
def createQueryValues : QVals → List OExpr
  | .nil => []
  | .cons entry rest => queryValueExpr entry :: createQueryValues rest

def queryValueExpr : QueryValue → OExpr
  | .exprV e => e
  | .nestedV _ cn app inner => mapNestedViews app cn (createQueryValues inner)

end

/-- `this._values.values.some(value => value instanceof ViewQueryValues)`. -/
def anyViewQueryValues : QVals → Bool
  | .nil => false
  | .cons (.nestedV ..) _ => true
  | .cons (.exprV _) rest => anyViewQueryValues rest

/-- `CompileQuery._isStatic`: no immediate `ViewQueryValues` entry among
the collected values. -/
def _isStatic (q : CompileQuery) : Bool :=
  !(anyViewQueryValues q.values)

/-! Whether the collected tree contains a nested-view subtree anywhere
(the spec's "no nested-view subtree").  Any nested subtree in the tree is
reachable only through nested entries, and a nested entry is itself a
nested-view subtree, so containment anywhere coincides with containment at
the top level. -/

mutual

def qvalsContainNested : QVals → Bool
  | .nil => false
  | .cons v rest => queryValueContainsNested v || qvalsContainNested rest

def queryValueContainsNested : QueryValue → Bool
  | .exprV _ => false
  | .nestedV _ _ _ _ => true

end

/-- The `updateStmts` sequence of `afterChildren`: reset the query list
with the flattened values, assign the owning directive's property when an
owner is present, and notify unless the query asks for the first result
only. -/
def afterChildrenUpdateStmts (q : CompileQuery) : List OStmt :=
  let values := createQueryValues q.values
  [OStmt.exprStmt (OExpr.callMethod q.queryList "reset" [OExpr.literalArr values])]
  ++ (match q.ownerDirectiveExpression with
      | some owner =>
        [OStmt.exprStmt (OExpr.writeProp owner q.meta.propertyName
          (if q.meta.first then OExpr.prop q.queryList "first" else q.queryList))]
      | none => [])
  ++ (if !q.meta.first then
        [OStmt.exprStmt (OExpr.callMethod q.queryList "notifyOnChanges" [])]
      else [])

/-- `CompileQuery.afterChildren`: appends the update sequence either
unconditionally to the static (creation) method, or wrapped in a
dirty-flag conditional to the dynamic (update) method. -/
def afterChildren (q : CompileQuery)
    (targetStaticMethod targetDynamicMethod : List OStmt) :
    List OStmt × List OStmt :=
  let updateStmts := afterChildrenUpdateStmts q
  if q.meta.first && _isStatic q then
    (targetStaticMethod ++ updateStmts, targetDynamicMethod)
  else
    (targetStaticMethod,
     targetDynamicMethod ++ [OStmt.ifStmt (OExpr.prop q.queryList "dirty") updateStmts])

/-! ## Local-variable resolution (`CompileView.getLocal`)

A view, for local resolution, is its `locals` map together with the chain
of declaration-element views (`none` when `declarationElement.view` is
null). -/

inductive LView where
  | top (locals : List (String × OExpr)) : LView
  | nested (locals : List (String × OExpr)) (declarationView : LView) : LView

def LView.localsOf : LView → List (String × OExpr)
  | .top ls => ls
  | .nested ls _ => ls

def lookupLocal (locals : List (String × OExpr)) (name : String) : Option OExpr :=
  match locals with
  | [] => none
  | (n, e) :: rest => if n = name then some e else lookupLocal rest name

/-- Modelled from the spec: the reserved event-object expression
(`EventHandlerVars.event`; constants module not among the sources). -/
def eventExpr : OExpr := OExpr.readVar "$event"

def eventVarName : String := "$event"

/-- The `while` walk of `getLocal`: the nearest binding on the
declaration-view chain together with the distance walked (the loop runs
while no result was found and `currView.declarationElement.view` is
present). -/
def getLocalGo : LView → String → Option (OExpr × Nat)
  | .top ls, name =>
    match lookupLocal ls name with
    | some e => some (e, 0)
    | none => none
  | .nested ls parentView, name =>
    match lookupLocal ls name with
    | some e => some (e, 0)
    | none => (getLocalGo parentView name).map (fun r => (r.1, r.2 + 1))

/-- `CompileView.getLocal`: the reserved event name resolves to the event
expression before any local is consulted; otherwise the nearest binding on
the chain is rewritten relative to the distance traversed, and an
exhausted chain yields `none`. -/
def getLocal (view : LView) (name : String) : Option OExpr :=
  if name = eventVarName then some eventExpr
  else
    match getLocalGo view name with
    | some (result, dist) => some (getPropertyInView result dist)
    | none => none

/-! ## Literal factories (`createLiteralArray` / `createLiteralMap`) -/

/-- The slice of `CompileView` state the literal factories touch. -/
structure LitState where
  fields : List (String × String)
  createStmts : List OStmt
  literalArrayCount : Nat
  literalMapCount : Nat

/-- Modelled from the spec: `createPureProxy` (view_compiler util module
not among the sources) — registers the memoizing pure-proxy storage slot
on the view and assigns it the proxied function in the create method. -/
def createPureProxy (fn : OExpr) (argCount : Nat) (proxyFieldName : String)
    (s : LitState) : LitState :=
  { s with
    fields := s.fields ++ [(proxyFieldName, "pureProxy")],
    createStmts := s.createStmts ++
      [OStmt.exprStmt (OExpr.writeProp OExpr.thisE proxyFieldName
        (OExpr.callFn (OExpr.importE ("pureProxy" ++ toString argCount)) [fn]))] }

/-- `CompileView.createLiteralArray`. -/
def createLiteralArray (s : LitState) (values : List OExpr) : OExpr × LitState :=
  if values.length = 0 then
    (OExpr.importE "EMPTY_ARRAY", s)
  else
    let proxyFieldName := "_arr_" ++ toString s.literalArrayCount
    let s := { s with literalArrayCount := s.literalArrayCount + 1 }
    let proxyExpr := OExpr.prop OExpr.thisE proxyFieldName
    let proxyParams := (List.range values.length).map (fun i => "p" ++ toString i)
    let proxyReturnEntries := (List.range values.length).map
      (fun i => OExpr.readVar ("p" ++ toString i))
    let s := createPureProxy
      (OExpr.fnE proxyParams [OStmt.returnStmt (OExpr.literalArr proxyReturnEntries)])
      values.length proxyFieldName s
    (OExpr.callFn proxyExpr values, s)

/-- `CompileView.createLiteralMap`. -/
def createLiteralMap (s : LitState) (entries : List (String × OExpr)) : OExpr × LitState :=
  if entries.length = 0 then
    (OExpr.importE "EMPTY_MAP", s)
  else
    let proxyFieldName := "_map_" ++ toString s.literalMapCount
    let s := { s with literalMapCount := s.literalMapCount + 1 }
    let proxyExpr := OExpr.prop OExpr.thisE proxyFieldName
    let proxyParams := (List.range entries.length).map (fun i => "p" ++ toString i)
    let proxyReturnEntries := (List.zip entries (List.range entries.length)).map
      (fun e => (e.1.1, OExpr.readVar ("p" ++ toString e.2)))
    let values := entries.map (fun e => e.2)
    let s := createPureProxy
      (OExpr.fnE proxyParams [OStmt.returnStmt (OExpr.literalMap proxyReturnEntries)])
      entries.length proxyFieldName s
    (OExpr.callFn proxyExpr values, s)

/-! ## Statement-side definitions

Definitions used by the lemma and claim statements below: the spec-side
characterizations (nearest binding, container paths, per-name merge
values), the builder well-formedness predicates, and the concrete scenario
inputs. -/

/-! The scope chain of a view, outermost last, and the spec-side
characterization of the nearest binding: all scopes nearer than `d` miss,
and the scope at distance `d` binds the name. -/

def scopeChain : LView → List (List (String × OExpr))
  | .top ls => [ls]
  | .nested ls p => ls :: scopeChain p

def NearestBinding (view : LView) (name : String) (d : Nat) (e : OExpr) : Prop :=
  (∀ i scope, i < d → (scopeChain view)[i]? = some scope →
    lookupLocal scope name = none)
  ∧ (∃ scope, (scopeChain view)[d]? = some scope ∧ lookupLocal scope name = some e)

def NoBinding (view : LView) (name : String) : Prop :=
  ∀ scope ∈ scopeChain view, lookupLocal scope name = none

/-- The running merged value for one attribute name, folded over the values
declared for it. -/
def mergeVals (name : String) (acc : Option String) (vs : List String) : Option String :=
  vs.foldl
    (fun a v =>
      match a with
      | none => some v
      | some prev => some (mergeAttributeValue name prev v))
    acc

/-- The host-attribute values a single directive declares for `name`
(`Object.keys` order). -/
def hostAttrValuesFor (d : CompileDirectiveMetadata) (name : String) : List String :=
  (d.hostAttributes.filter (fun nv => nv.1 = name)).map Prod.snd

/-- The space-joined concatenation of a list of attribute values. -/
def spaceJoin : List String → String
  | [] => ""
  | [v] => v
  | v :: w :: rest => v ++ " " ++ spaceJoin (w :: rest)

instance : IsTotal (String × String) (fun a b => a.1 ≤ b.1) :=
  ⟨fun a b => le_total a.1 b.1⟩

instance : IsTrans (String × String) (fun a b => a.1 ≤ b.1) :=
  ⟨fun _ _ _ hab hbc => le_trans hab hbc⟩

/-- A walk from a node upward through parents that are `ng-container`
elements of the given view: each step moves to the direct parent, which
must be an `ng-container` of that view. -/
inductive ContainerPath (view : Option Nat) : CompileNode → CompileNode → Prop where
  | refl (n : CompileNode) : ContainerPath view n n
  | step (n r : CompileNode) (h : _isNgContainer n.parentOf view = true)
      (rest : ContainerPath view n.parentOf r) : ContainerPath view n r

/-! ### Builder invariants -/

/-- The storage field the builder allocates for a node, as a function of
the node's kind and positional index. -/
def generatedField (n : CNode) : String × String :=
  match n.kind with
  | .textNode => ("_text_" ++ toString n.nodeIndex, "renderText")
  | .elementNode => ("_el_" ++ toString n.nodeIndex, "renderElement")
  | .anchorNode => ("_anchor_" ++ toString n.nodeIndex, "renderComment")

/-! The number of embedded-template nodes in a template, counted
transitively (each constructs exactly one child view). -/

mutual

def countEmbeddedAst : TemplateAst → Nat
  | .element _ _ _ _ _ children => countEmbeddedAsts children
  | .embeddedTemplate _ _ _ _ children => 1 + countEmbeddedAsts children
  | _ => 0

def countEmbeddedAsts : TemplateAsts → Nat
  | .nil => 0
  | .cons a rest => countEmbeddedAst a + countEmbeddedAsts rest

end

def subtreeIndicesFlat (l : List CView) : List Nat :=
  (l.map subtreeIndices).flatten

/-! Well-formedness of a built view: node indices are `0, 1, 2, …` in
order, fields are the canonical per-node fields, the embedded views'
preorder indices continue contiguously after the view's own index, and the
same holds recursively. -/

mutual

def WfView : CView → Prop
  | .mk vi _ _ nodes fields _ _ children =>
    nodes.map CNode.nodeIndex = List.range nodes.length
    ∧ fields = nodes.map generatedField
    ∧ subtreeIndicesList children = List.range' (vi + 1) (subtreeIndicesList children).length
    ∧ WfViews children

def WfViews : CViews → Prop
  | .nil => True
  | .cons v rest => WfView v ∧ WfViews rest

end

/-- The visitor-step contract: the state is only extended — new nodes carry
consecutive indices continuing from the current node count, each with its
canonical field; the nested-view counter grows by the number of embedded
templates visited; and the new child views' preorder indices are exactly
the next `k` view indices, each child view being well formed. -/
def BuildSpec (ctx : BuildCtx) (st st1 : BState) (k : Nat) : Prop :=
  (∃ delta, st1.nodes = st.nodes ++ delta
    ∧ delta.map CNode.nodeIndex = List.range' st.nodes.length delta.length
    ∧ st1.fields = st.fields ++ delta.map generatedField)
  ∧ st1.nestedViewCount = st.nestedViewCount + k
  ∧ (∃ dviews, st1.childViews = st.childViews ++ dviews
    ∧ subtreeIndicesFlat dviews
        = List.range' (ctx.viewIndex + st.nestedViewCount + 1) k
    ∧ ∀ v ∈ dviews, WfView v)

/-- The compiled component of the spec's nesting scenario. -/
def demoComponent : CompileDirectiveMetadata :=
  ⟨"MyComp", true, false, [], [], false, 0⟩

/-- A component view with two structural directives nested two levels
deep: an element whose embedded template contains another embedded
template. -/
def demoNestedTemplate : TemplateAsts :=
  .cons (.element "div" [] [] none false
    (.cons (.embeddedTemplate [] [] none true
      (.cons (.embeddedTemplate [] [] none true
        (.cons (.text "x" none) .nil)) .nil)) .nil)) .nil

/-- All values declared for `name`, in merge order: the static HTML value
first (when present), then each directive's host-attribute value in
declaration order. -/
def attrValuesInOrder (attrs : List (String × String))
    (directives : List CompileDirectiveMetadata) (name : String) : List String :=
  (jsGet (_readHtmlAttrs attrs) name).toList
    ++ (directives.map (fun d => hostAttrValuesFor d name)).flatten

/-! ## Helper lemmas -/

theorem createQueryValues_append : ∀ xs ys : QVals,
    createQueryValues (QVals.append xs ys) = createQueryValues xs ++ createQueryValues ys
  | .nil, ys => rfl
  | .cons x xs, ys => by
    simp [QVals.append, createQueryValues, createQueryValues_append xs ys]

theorem qvalsContainNested_eq_any : ∀ vs : QVals,
    qvalsContainNested vs = anyViewQueryValues vs
  | .nil => rfl
  | .cons (.exprV e) rest => by
    simp [qvalsContainNested, anyViewQueryValues, queryValueContainsNested,
      qvalsContainNested_eq_any rest]
  | .cons (.nestedV ..) rest => by
    simp [qvalsContainNested, anyViewQueryValues, queryValueContainsNested]

theorem elPathGo_eq_nil_iff (ownerIdx : Nat) (view : QView) :
    elPathGo ownerIdx view = [] ↔ view.idxOf = ownerIdx := by
  cases view with
  | top i cn =>
    by_cases h : i = ownerIdx <;> simp [elPathGo, QView.idxOf, h]
  | nested i cn app p =>
    by_cases h : i = ownerIdx <;> simp [elPathGo, QView.idxOf, h]


theorem getLocalGo_eq_some_of_nearest : ∀ (view : LView) (name : String) (d : Nat)
    (e : OExpr), NearestBinding view name d e → getLocalGo view name = some (e, d)
  | .top ls, name, d, e, h => by
    obtain ⟨hmiss, scope, hs, hl⟩ := h
    match d, hs with
    | 0, hs =>
      simp [scopeChain] at hs
      subst hs
      simp [getLocalGo, hl]
    | Nat.succ d, hs =>
      simp [scopeChain] at hs
  | .nested ls p, name, d, e, h => by
    obtain ⟨hmiss, scope, hs, hl⟩ := h
    match d, hs with
    | 0, hs =>
      simp [scopeChain] at hs
      subst hs
      simp [getLocalGo, hl]
    | Nat.succ d, hs =>
      simp only [scopeChain, List.getElem?_cons_succ] at hs
      have hnone : lookupLocal ls name = none := by
        have := hmiss 0 ls (Nat.succ_pos d)
        simp [scopeChain] at this
        exact this
      have hexp : NearestBinding p name d e := by
        refine ⟨fun i scope hi hsc => ?_, scope, hs, hl⟩
        have := hmiss (i + 1) scope (Nat.succ_lt_succ hi)
        simp [scopeChain] at this
        exact this hsc
      have := getLocalGo_eq_some_of_nearest p name d e hexp
      simp [getLocalGo, hnone, this]

theorem getLocalGo_eq_none_of_nobinding : ∀ (view : LView) (name : String),
    NoBinding view name → getLocalGo view name = none
  | .top ls, name, h => by
    have hl : lookupLocal ls name = none := h ls (by simp [scopeChain])
    simp [getLocalGo, hl]
  | .nested ls p, name, h => by
    have hl : lookupLocal ls name = none := h ls (by simp [scopeChain])
    have hp : NoBinding p name := fun scope hs => h scope (by simp [scopeChain, hs])
    simp [getLocalGo, hl, getLocalGo_eq_none_of_nobinding p name hp]

/-! ### Attribute-merge lemmas -/

theorem jsGet_jsSet (m : List (String × String)) (k v k2 : String) :
    jsGet (jsSet m k v) k2 = if k2 = k then some v else jsGet m k2 := by
  induction m with
  | nil =>
    by_cases h : k = k2
    · subst h; simp [jsSet, jsGet]
    · have h2 : ¬ k2 = k := fun hh => h hh.symm
      simp [jsSet, jsGet, h, h2]
  | cons hd tl ih =>
    obtain ⟨k1, v1⟩ := hd
    by_cases h1 : k1 = k
    · subst h1
      by_cases h2 : k2 = k1
      · subst h2; simp [jsSet, jsGet]
      · have h3 : ¬ k1 = k2 := fun hh => h2 hh.symm
        simp [jsSet, jsGet, h2, h3]
    · by_cases h2 : k1 = k2
      · have h3 : ¬ k2 = k := fun hh => h1 (h2.trans hh)
        simp [jsSet, jsGet, h1, h2, h3]
      · simp [jsSet, jsGet, h1, h2, ih]

theorem mem_keys_jsSet (m : List (String × String)) (k v a : String) :
    a ∈ (jsSet m k v).map Prod.fst ↔ a ∈ m.map Prod.fst ∨ a = k := by
  induction m with
  | nil => simp [jsSet]
  | cons hd tl ih =>
    obtain ⟨k1, v1⟩ := hd
    by_cases h1 : k1 = k
    · subst h1
      rw [show jsSet ((k1, v1) :: tl) k1 v = (k1, v) :: tl by simp [jsSet]]
      simp only [List.map_cons, List.mem_cons]
      tauto
    · simp only [jsSet, if_neg h1, List.map_cons, List.mem_cons, ih]
      tauto

theorem nodup_keys_jsSet (m : List (String × String)) (k v : String)
    (h : (m.map Prod.fst).Nodup) : ((jsSet m k v).map Prod.fst).Nodup := by
  induction m with
  | nil => simp [jsSet]
  | cons hd tl ih =>
    obtain ⟨k1, v1⟩ := hd
    simp only [List.map_cons, List.nodup_cons] at h
    by_cases h1 : k1 = k
    · subst h1
      simpa [jsSet, List.nodup_cons] using h
    · rw [show jsSet ((k1, v1) :: tl) k v = (k1, v1) :: jsSet tl k v by
        simp [jsSet, h1]]
      simp only [List.map_cons, List.nodup_cons]
      refine ⟨?_, ih h.2⟩
      rw [mem_keys_jsSet]
      rintro (hmem | heq)
      · exact h.1 hmem
      · exact h1 heq

theorem nodup_keys_mergeHostAttr (res : List (String × String))
    (nv : String × String) (h : (res.map Prod.fst).Nodup) :
    ((mergeHostAttr res nv).map Prod.fst).Nodup := by
  unfold mergeHostAttr
  cases jsGet res nv.1 <;> exact nodup_keys_jsSet _ _ _ h

theorem nodup_keys_foldl_mergeHostAttr (entries : List (String × String)) :
    ∀ res, (res.map Prod.fst).Nodup →
      ((entries.foldl mergeHostAttr res).map Prod.fst).Nodup := by
  induction entries with
  | nil => intro res h; simpa using h
  | cons nv rest ih =>
    intro res h
    exact ih _ (nodup_keys_mergeHostAttr res nv h)

theorem nodup_keys_foldl_mergeDirectiveAttrs
    (directives : List CompileDirectiveMetadata) :
    ∀ res, (res.map Prod.fst).Nodup →
      ((directives.foldl mergeDirectiveAttrs res).map Prod.fst).Nodup := by
  induction directives with
  | nil => intro res h; simpa using h
  | cons d rest ih =>
    intro res h
    exact ih _ (nodup_keys_foldl_mergeHostAttr d.hostAttributes res h)

theorem nodup_keys_readHtmlAttrs (attrs : List (String × String)) :
    ((_readHtmlAttrs attrs).map Prod.fst).Nodup := by
  have aux : ∀ (l : List (String × String)) (m : List (String × String)),
      (m.map Prod.fst).Nodup →
      ((l.foldl (fun htmlAttrs a => jsSet htmlAttrs a.1 a.2) m).map Prod.fst).Nodup := by
    intro l
    induction l with
    | nil => intro m h; simpa using h
    | cons a rest ih => intro m h; exact ih _ (nodup_keys_jsSet m a.1 a.2 h)
  exact aux attrs [] (by simp)


theorem mergeVals_append (name : String) (acc : Option String)
    (vs1 vs2 : List String) :
    mergeVals name acc (vs1 ++ vs2) = mergeVals name (mergeVals name acc vs1) vs2 := by
  simp [mergeVals, List.foldl_append]

theorem jsGet_foldl_mergeHostAttr (entries : List (String × String)) :
    ∀ (res : List (String × String)) (name : String),
    jsGet (entries.foldl mergeHostAttr res) name
      = mergeVals name (jsGet res name)
          ((entries.filter (fun nv => nv.1 = name)).map Prod.snd) := by
  induction entries with
  | nil => intro res name; rfl
  | cons nv rest ih =>
    intro res name
    rw [List.foldl_cons, ih]
    by_cases h : nv.1 = name
    · subst h
      cases hprev : jsGet res nv.1 with
      | none =>
        simp [mergeHostAttr, hprev, jsGet_jsSet, mergeVals]
      | some prev =>
        simp [mergeHostAttr, hprev, jsGet_jsSet, mergeVals]
    · have h2 : ¬ name = nv.1 := fun hh => h hh.symm
      have hgets : jsGet (mergeHostAttr res nv) name = jsGet res name := by
        unfold mergeHostAttr
        cases jsGet res nv.1 <;> simp [jsGet_jsSet, h2]
      simp [hgets, h]


theorem jsGet_foldl_mergeDirectiveAttrs
    (directives : List CompileDirectiveMetadata) :
    ∀ (res : List (String × String)) (name : String),
    jsGet (directives.foldl mergeDirectiveAttrs res) name
      = mergeVals name (jsGet res name)
          ((directives.map (fun d => hostAttrValuesFor d name)).flatten) := by
  induction directives with
  | nil => intro res name; rfl
  | cons d rest ih =>
    intro res name
    rw [List.foldl_cons, ih]
    simp only [List.map_cons, List.flatten_cons, mergeVals_append]
    rw [mergeDirectiveAttrs, jsGet_foldl_mergeHostAttr]
    rfl


theorem spaceJoin_glue (p v : String) (vs : List String) :
    spaceJoin ((p ++ " " ++ v) :: vs) = spaceJoin (p :: v :: vs) := by
  cases vs with
  | nil => rfl
  | cons w ws => simp [spaceJoin, String.append_assoc]

theorem mergeVals_some_of_classStyle (name : String)
    (hname : name = CLASS_ATTR ∨ name = STYLE_ATTR) :
    ∀ (vs : List String) (p : String),
    mergeVals name (some p) vs = some (spaceJoin (p :: vs)) := by
  intro vs
  induction vs with
  | nil => intro p; rfl
  | cons v rest ih =>
    intro p
    have hstep : mergeVals name (some p) (v :: rest)
        = mergeVals name (some (p ++ " " ++ v)) rest := by
      simp [mergeVals, mergeAttributeValue, hname]
    rw [hstep, ih, spaceJoin_glue]

theorem mergeVals_none_of_classStyle (name : String)
    (hname : name = CLASS_ATTR ∨ name = STYLE_ATTR) (vs : List String) :
    mergeVals name none vs
      = if vs.isEmpty then none else some (spaceJoin vs) := by
  cases vs with
  | nil => rfl
  | cons v rest =>
    have hstep : mergeVals name none (v :: rest) = mergeVals name (some v) rest := rfl
    rw [hstep, mergeVals_some_of_classStyle name hname]
    simp

theorem mergeVals_other (name : String)
    (hname : ¬(name = CLASS_ATTR ∨ name = STYLE_ATTR)) :
    ∀ (vs : List String) (acc : Option String), vs ≠ [] →
    mergeVals name acc vs = vs.getLast? := by
  intro vs
  induction vs with
  | nil => intro acc h; exact absurd rfl h
  | cons v rest ih =>
    intro acc h
    have hstep : mergeVals name acc (v :: rest) = mergeVals name (some v) rest := by
      cases acc with
      | none => rfl
      | some p => simp [mergeVals, mergeAttributeValue, hname]
    rw [hstep]
    cases rest with
    | nil => rfl
    | cons w ws =>
      rw [ih (some v) (by simp), List.getLast?_cons_cons]

theorem jsGet_eq_none_iff (m : List (String × String)) (k : String) :
    jsGet m k = none ↔ k ∉ m.map Prod.fst := by
  induction m with
  | nil => simp [jsGet]
  | cons hd tl ih =>
    obtain ⟨k1, v1⟩ := hd
    by_cases h : k1 = k
    · subst h; simp [jsGet]
    · have h2 : ¬ k = k1 := fun hh => h hh.symm
      simp [jsGet, h, h2, ih]

theorem jsGet_eq_some_iff (m : List (String × String)) (k : String) (v : String) :
    (m.map Prod.fst).Nodup → (jsGet m k = some v ↔ (k, v) ∈ m) := by
  induction m with
  | nil => intro _; simp [jsGet]
  | cons hd tl ih =>
    intro hnd
    obtain ⟨k1, v1⟩ := hd
    simp only [List.map_cons, List.nodup_cons] at hnd
    by_cases h : k1 = k
    · simp only [jsGet, if_pos h, List.mem_cons, Option.some.injEq, Prod.mk.injEq]
      constructor
      · intro hv; exact Or.inl ⟨h.symm, hv.symm⟩
      · rintro (⟨-, hv⟩ | hmem)
        · exact hv.symm
        · subst h
          exact absurd (List.mem_map_of_mem Prod.fst hmem) hnd.1
    · simp only [jsGet, if_neg h, ih hnd.2, List.mem_cons, Prod.mk.injEq]
      constructor
      · exact fun hmem => Or.inr hmem
      · rintro (⟨hk, -⟩ | hmem)
        · exact absurd hk.symm h
        · exact hmem

theorem jsGet_of_perm (m m2 : List (String × String)) (k : String)
    (hperm : m.Perm m2) (hnd : (m.map Prod.fst).Nodup) :
    jsGet m2 k = jsGet m k := by
  have hnd2 : (m2.map Prod.fst).Nodup := (hperm.map Prod.fst).nodup_iff.mp hnd
  cases hres : jsGet m k with
  | none =>
    rw [jsGet_eq_none_iff] at hres ⊢
    exact fun hmem => hres ((hperm.map Prod.fst).mem_iff.mpr hmem)
  | some v =>
    rw [jsGet_eq_some_iff m k v hnd] at hres
    rw [jsGet_eq_some_iff m2 k v hnd2]
    exact hperm.mem_iff.mp hres

theorem sortEntries_perm (m : List (String × String)) : (sortEntries m).Perm m :=
  List.perm_insertionSort _ m

theorem jsGet_sortEntries (m : List (String × String)) (k : String)
    (hnd : (m.map Prod.fst).Nodup) : jsGet (sortEntries m) k = jsGet m k :=
  jsGet_of_perm m (sortEntries m) k (sortEntries_perm m).symm hnd


theorem pairwise_lt_sortEntries (m : List (String × String))
    (hnd : (m.map Prod.fst).Nodup) :
    (sortEntries m).Pairwise (fun p q => p.1 < q.1) := by
  have hle : (sortEntries m).Pairwise (fun p q : String × String => p.1 ≤ q.1) :=
    List.sorted_insertionSort _ m
  have hnd2 : ((sortEntries m).map Prod.fst).Nodup :=
    (((sortEntries_perm m).map Prod.fst).nodup_iff).mpr hnd
  have hne : (sortEntries m).Pairwise (fun p q : String × String => p.1 ≠ q.1) :=
    List.pairwise_map.mp hnd2
  exact (hle.and hne).imp (fun h => lt_of_le_of_ne h.1 h.2)

theorem elementSetAttrStmts_eq (renderNode : OExpr) (astName : String)
    (arr : List (String × String)) :
    elementSetAttrStmts renderNode astName arr =
      if astName = NG_CONTAINER_TAG then []
      else arr.map (fun nv => setElementAttributeStmt renderNode nv.1 nv.2) := by
  have aux : ∀ (l : List (String × String)) (init : List OStmt),
      l.foldl (fun acc nv =>
        if astName ≠ NG_CONTAINER_TAG then
          acc ++ [setElementAttributeStmt renderNode nv.1 nv.2]
        else acc) init
      = init ++ (if astName = NG_CONTAINER_TAG then []
          else l.map (fun nv => setElementAttributeStmt renderNode nv.1 nv.2)) := by
    intro l
    induction l with
    | nil => intro init; simp
    | cons nv rest ih =>
      intro init
      by_cases h : astName = NG_CONTAINER_TAG
      · simp [h] at ih ⊢
      · simp [h] at ih ⊢
        rw [ih]
        simp
  simpa [elementSetAttrStmts] using aux arr []


theorem outerContainerGo_path : ∀ (view : Option Nat) (n : CompileNode),
    ContainerPath view n (outerContainerGo view n)
    ∧ _isNgContainer (outerContainerGo view n).parentOf view = false
  | view, .nullNode => by
    constructor
    · exact ContainerPath.refl _
    · simp [outerContainerGo, CompileNode.parentOf, _isNgContainer, CompileNode.isNull]
  | view, .node p v i sn ci rn c hvc isEl => by
    by_cases h : _isNgContainer p view
    · have ih := outerContainerGo_path view p
      constructor
      · refine ContainerPath.step _ _ ?_ ?_
        · simpa [CompileNode.parentOf] using h
        · simpa [CompileNode.parentOf, outerContainerGo, h] using ih.1
      · simpa [outerContainerGo, h] using ih.2
    · constructor
      · simpa [outerContainerGo, h] using ContainerPath.refl (CompileNode.node p v i sn ci rn c hvc isEl)
      · simp [outerContainerGo, h, CompileNode.parentOf]


theorem subtreeIndicesList_ofList : ∀ l : List CView,
    subtreeIndicesList (CViews.ofList l) = subtreeIndicesFlat l
  | [] => rfl
  | v :: rest => by
    simp [CViews.ofList, subtreeIndicesList, subtreeIndicesFlat,
      subtreeIndicesList_ofList rest]


theorem WfViews_ofList : ∀ l : List CView,
    (∀ v ∈ l, WfView v) → WfViews (CViews.ofList l)
  | [], _ => trivial
  | v :: rest, h => ⟨h v (by simp), WfViews_ofList rest (fun w hw => h w (by simp [hw]))⟩


theorem BuildSpec.of_untracked (ctx : BuildCtx) (st st1 : BState)
    (hn : st1.nodes = st.nodes) (hf : st1.fields = st.fields)
    (hv : st1.childViews = st.childViews)
    (hc : st1.nestedViewCount = st.nestedViewCount) :
    BuildSpec ctx st st1 0 := by
  refine ⟨⟨[], by simp [hn], by simp, by simp [hf]⟩, by simp [hc], ⟨[], by simp [hv], ?_, by simp⟩⟩
  simp [subtreeIndicesFlat]

theorem BuildSpec.comp (ctx : BuildCtx) (st st1 st2 : BState) (k1 k2 : Nat)
    (h1 : BuildSpec ctx st st1 k1) (h2 : BuildSpec ctx st1 st2 k2) :
    BuildSpec ctx st st2 (k1 + k2) := by
  obtain ⟨⟨d1, hn1, hi1, hf1⟩, hc1, ⟨v1, hv1, hs1, hw1⟩⟩ := h1
  obtain ⟨⟨d2, hn2, hi2, hf2⟩, hc2, ⟨v2, hv2, hs2, hw2⟩⟩ := h2
  refine ⟨⟨d1 ++ d2, ?_, ?_, ?_⟩, ?_, ⟨v1 ++ v2, ?_, ?_, ?_⟩⟩
  · rw [hn2, hn1, List.append_assoc]
  · rw [List.map_append, hi1, hi2, hn1, List.length_append, List.length_append,
        Nat.add_comm d1.length d2.length]
    have h := List.range'_append st.nodes.length d1.length d2.length 1
    simp only [one_mul] at h
    exact h
  · rw [hf2, hf1, List.map_append, List.append_assoc]
  · omega
  · rw [hv2, hv1, List.append_assoc]
  · rw [subtreeIndicesFlat, List.map_append, List.flatten_append]
    rw [show (List.map subtreeIndices v1).flatten = subtreeIndicesFlat v1 from rfl,
        show (List.map subtreeIndices v2).flatten = subtreeIndicesFlat v2 from rfl,
        hs1, hs2, hc1]
    have h := List.range'_append (ctx.viewIndex + st.nestedViewCount + 1) k1 k2 1
    simp only [one_mul] at h
    rw [show ctx.viewIndex + (st.nestedViewCount + k1) + 1
        = ctx.viewIndex + st.nestedViewCount + 1 + k1 by omega,
        Nat.add_comm k1 k2]
    exact h
  · intro v hv
    rcases List.mem_append.mp hv with h | h
    · exact hw1 v h
    · exact hw2 v h

theorem applyRegAction_nodes (st : BState) (a : RegAction) :
    (applyRegAction st a).nodes = st.nodes := by cases a <;> rfl

theorem applyRegAction_fields (st : BState) (a : RegAction) :
    (applyRegAction st a).fields = st.fields := by cases a <;> rfl

theorem applyRegAction_childViews (st : BState) (a : RegAction) :
    (applyRegAction st a).childViews = st.childViews := by cases a <;> rfl

theorem applyRegAction_nestedViewCount (st : BState) (a : RegAction) :
    (applyRegAction st a).nestedViewCount = st.nestedViewCount := by cases a <;> rfl

theorem BuildSpec.push_node (ctx : BuildCtx) (st st1 : BState) (kind : NodeKind)
    (rn : OExpr)
    (hn : st1.nodes = st.nodes ++ [CNode.mk st.nodes.length kind rn])
    (hf : st1.fields = st.fields ++ [generatedField (CNode.mk st.nodes.length kind rn)])
    (hv : st1.childViews = st.childViews)
    (hc : st1.nestedViewCount = st.nestedViewCount) :
    BuildSpec ctx st st1 0 := by
  refine ⟨⟨[CNode.mk st.nodes.length kind rn], hn, ?_, hf⟩, by simp [hc],
    ⟨[], by simp [hv], ?_, by simp⟩⟩
  · simp [List.range'_one]
  · simp [subtreeIndicesFlat]

theorem visitText_spec (ctx : BuildCtx) (value : String) (ngContentIndex : Option Nat)
    (parent : CompileNode) (st : BState) :
    BuildSpec ctx st (_visitText ctx value ngContentIndex parent st) 0 := by
  apply BuildSpec.push_node ctx st _ NodeKind.textNode
    (OExpr.prop OExpr.thisE ("_text_" ++ toString st.nodes.length)) <;>
    simp [_visitText, applyRegAction_nodes, applyRegAction_fields,
      applyRegAction_childViews, applyRegAction_nestedViewCount, generatedField]

theorem visitNgContent_spec (ctx : BuildCtx) (index : Nat)
    (ngContentIndex : Option Nat) (parent : CompileNode) (st : BState) :
    BuildSpec ctx st (visitNgContent ctx index ngContentIndex parent st) 0 := by
  apply BuildSpec.of_untracked <;>
    · simp only [visitNgContent]
      repeat' split
      all_goals rfl

theorem visitElementPre_spec (ctx : BuildCtx) (name : String)
    (attrs : List (String × String)) (directives : List CompileDirectiveMetadata)
    (ngContentIndex : Option Nat) (hasViewContainer : Bool) (parent : CompileNode)
    (st : BState) :
    BuildSpec ctx st
      (visitElementPre ctx name attrs directives ngContentIndex hasViewContainer
        parent st) 0 := by
  apply BuildSpec.push_node ctx st _ NodeKind.elementNode
    (OExpr.prop OExpr.thisE ("_el_" ++ toString st.nodes.length)) <;>
    · unfold visitElementPre
      cases directives.find? (fun directive => directive.isComponent) <;>
        simp [applyRegAction_nodes, applyRegAction_fields,
          applyRegAction_childViews, applyRegAction_nestedViewCount, generatedField]

theorem visitElementPost_spec (ctx : BuildCtx)
    (component : Option CompileDirectiveMetadata) (nodeIndex : Nat) (st : BState) :
    BuildSpec ctx st (visitElementPost ctx component nodeIndex st) 0 := by
  apply BuildSpec.of_untracked <;> (cases component <;> rfl)

theorem visitEmbeddedPre_spec (ctx : BuildCtx) (parent : CompileNode) (st : BState) :
    BuildSpec ctx st (visitEmbeddedPre ctx parent st) 0 := by
  apply BuildSpec.push_node ctx st _ NodeKind.anchorNode
    (OExpr.prop OExpr.thisE ("_anchor_" ++ toString st.nodes.length)) <;>
    simp [visitEmbeddedPre, generatedField]

/-- The embedded-template step after the anchor: building the child view
and pushing it, bumping the nested-view counter, and the registration. -/
theorem visitEmbedded_step_spec (ctx : BuildCtx) (tvb : List (String × String))
    (act : RegAction) (st1 : BState) (childCtx : BuildCtx)
    (hcc : childCtx.viewIndex = ctx.viewIndex + (st1.nestedViewCount + 1))
    (childSt : BState) (cc : Nat)
    (hchild : BuildSpec childCtx (initialBState st1.targetDependencies) childSt cc) :
    BuildSpec ctx st1
      (applyRegAction { st1 with
          nestedViewCount := st1.nestedViewCount + 1 + childSt.nestedViewCount,
          targetDependencies := childSt.targetDependencies,
          childViews := st1.childViews ++ [assembleView childCtx tvb childSt] } act)
      (1 + cc) := by
  obtain ⟨⟨delta, hn, hi, hf⟩, hcount, ⟨dv, hv, hs, hw⟩⟩ := hchild
  simp only [initialBState] at hn hi hf hcount hv hs
  have hnodes : childSt.nodes = delta := by simpa using hn
  have hviews : childSt.childViews = dv := by simpa using hv
  have hcount2 : childSt.nestedViewCount = cc := by simpa using hcount
  refine ⟨⟨[], ?_, by simp, ?_⟩, ?_, ⟨[assembleView childCtx tvb childSt], ?_, ?_, ?_⟩⟩
  · simp [applyRegAction_nodes]
  · simp [applyRegAction_fields]
  · simp [applyRegAction_nestedViewCount, hcount2]
    omega
  · simp [applyRegAction_childViews]
  · have hflat : subtreeIndicesFlat [assembleView childCtx tvb childSt]
        = subtreeIndices (assembleView childCtx tvb childSt) := by
      simp [subtreeIndicesFlat]
    rw [hflat]
    show childCtx.viewIndex :: subtreeIndicesList (CViews.ofList childSt.childViews)
      = List.range' (ctx.viewIndex + st1.nestedViewCount + 1) (1 + cc)
    rw [subtreeIndicesList_ofList, hviews, hs, hcc]
    have : ctx.viewIndex + (st1.nestedViewCount + 1) + 0 + 1
        = ctx.viewIndex + (st1.nestedViewCount + 1) + 1 := by omega
    rw [this]
    have hr : List.range' (ctx.viewIndex + st1.nestedViewCount + 1) (cc + 1)
        = (ctx.viewIndex + st1.nestedViewCount + 1)
          :: List.range' (ctx.viewIndex + st1.nestedViewCount + 1 + 1) cc := rfl
    rw [Nat.add_comm 1 cc, hr]
    have : ctx.viewIndex + (st1.nestedViewCount + 1)
        = ctx.viewIndex + st1.nestedViewCount + 1 := by omega
    rw [this]
  · intro v hv2
    have hveq : v = assembleView childCtx tvb childSt := by simpa using hv2
    subst hveq
    show WfView (CView.mk childCtx.viewIndex childCtx.viewType tvb childSt.nodes
      childSt.fields childSt.createStmts childSt.rootNodesOrAppElements
      (CViews.ofList childSt.childViews))
    refine ⟨?_, ?_, ?_, ?_⟩
    · rw [hnodes]
      have hlen : delta.map CNode.nodeIndex = List.range' 0 delta.length := by
        simpa using hi
      rw [hlen, List.range_eq_range']
    · rw [hnodes]
      simpa using hf
    · rw [subtreeIndicesList_ofList, hviews, hs]
      simp
    · exact WfViews_ofList _ (by rw [hviews]; exact hw)

/-! The master invariant: every visit step satisfies `BuildSpec` with the
embedded-template count of the subtree it visits. -/

mutual

theorem templateVisitAll_spec (ctx : BuildCtx) :
    ∀ (asts : TemplateAsts) (parent : CompileNode) (st : BState),
    BuildSpec ctx st (templateVisitAll ctx asts parent st) (countEmbeddedAsts asts)
  | .nil, parent, st => by
    simpa [templateVisitAll, countEmbeddedAsts] using
      BuildSpec.of_untracked ctx st st rfl rfl rfl rfl
  | .cons a rest, parent, st => by
    have h1 := visitAst_spec ctx a parent st
    have h2 := templateVisitAll_spec ctx rest parent (visitAst ctx a parent st)
    simpa [templateVisitAll, countEmbeddedAsts] using
      BuildSpec.comp _ _ _ _ _ _ h1 h2

theorem visitAst_spec (ctx : BuildCtx) :
    ∀ (ast : TemplateAst) (parent : CompileNode) (st : BState),
    BuildSpec ctx st (visitAst ctx ast parent st) (countEmbeddedAst ast)
  | .text value ngContentIndex, parent, st => by
    simpa [visitAst, countEmbeddedAst] using
      visitText_spec ctx value ngContentIndex parent st
  | .boundText ngContentIndex, parent, st => by
    simpa [visitAst, countEmbeddedAst] using
      visitText_spec ctx "" ngContentIndex parent st
  | .ngContent index ngContentIndex, parent, st => by
    simpa [visitAst, countEmbeddedAst] using
      visitNgContent_spec ctx index ngContentIndex parent st
  | .otherAst, parent, st => by
    simpa [visitAst, countEmbeddedAst] using
      BuildSpec.of_untracked ctx st st rfl rfl rfl rfl
  | .element name attrs directives ngContentIndex hasViewContainer children,
      parent, st => by
    have h1 := visitElementPre_spec ctx name attrs directives ngContentIndex
      hasViewContainer parent st
    have h2 := templateVisitAll_spec ctx children
      (CompileNode.node parent ctx.viewIndex st.nodes.length (some name)
        ngContentIndex (OExpr.prop OExpr.thisE ("_el_" ++ toString st.nodes.length))
        (directives.find? (fun directive => directive.isComponent))
        hasViewContainer true)
      (visitElementPre ctx name attrs directives ngContentIndex hasViewContainer
        parent st)
    have h3 := visitElementPost_spec ctx
      (directives.find? (fun directive => directive.isComponent)) st.nodes.length
      (templateVisitAll ctx children
        (CompileNode.node parent ctx.viewIndex st.nodes.length (some name)
          ngContentIndex (OExpr.prop OExpr.thisE ("_el_" ++ toString st.nodes.length))
          (directives.find? (fun directive => directive.isComponent))
          hasViewContainer true)
        (visitElementPre ctx name attrs directives ngContentIndex hasViewContainer
          parent st))
    have hcomp := BuildSpec.comp _ _ _ _ _ _ (BuildSpec.comp _ _ _ _ _ _ h1 h2) h3
    simpa [visitAst, countEmbeddedAst] using hcomp
  | .embeddedTemplate templateVars directives ngContentIndex hasViewContainer
      children, parent, st => by
    have h1 := visitEmbeddedPre_spec ctx parent st
    have hchild := templateVisitAll_spec
      (⟨ctx.component,
        ctx.viewIndex + ((visitEmbeddedPre ctx parent st).nestedViewCount + 1),
        getViewType ctx.component
          (ctx.viewIndex + ((visitEmbeddedPre ctx parent st).nestedViewCount + 1))⟩ : BuildCtx)
      children parent
      (initialBState (visitEmbeddedPre ctx parent st).targetDependencies)
    have h2 := visitEmbedded_step_spec ctx
      (templateVars.map (fun varAst =>
        (if varAst.1.length > 0 then varAst.1 else IMPLICIT_TEMPLATE_VAR, varAst.2)))
      (_addRootNodeAndProject ctx.viewIndex ctx.viewType
        (CompileNode.node parent ctx.viewIndex st.nodes.length none ngContentIndex
          (OExpr.prop OExpr.thisE ("_anchor_" ++ toString st.nodes.length)) none
          hasViewContainer true))
      (visitEmbeddedPre ctx parent st)
      (⟨ctx.component,
        ctx.viewIndex + ((visitEmbeddedPre ctx parent st).nestedViewCount + 1),
        getViewType ctx.component
          (ctx.viewIndex + ((visitEmbeddedPre ctx parent st).nestedViewCount + 1))⟩ : BuildCtx)
      rfl _ (countEmbeddedAsts children) hchild
    have hcomp := BuildSpec.comp _ _ _ _ _ _ h1 h2
    simpa [visitAst, countEmbeddedAst] using hcomp

end

/-- Assembling a view from a builder state reached from a fresh state
yields a well-formed view whose preorder indices are the contiguous block
starting at its own index. -/
theorem assembleView_wf (ctx : BuildCtx) (tvb : List (String × String))
    (deps : List Dep) (st : BState) (k : Nat)
    (h : BuildSpec ctx (initialBState deps) st k) :
    WfView (assembleView ctx tvb st)
    ∧ subtreeIndices (assembleView ctx tvb st)
        = List.range' ctx.viewIndex (k + 1) := by
  obtain ⟨⟨delta, hn, hi, hf⟩, hcount, ⟨dv, hv, hs, hw⟩⟩ := h
  simp only [initialBState] at hn hi hf hcount hv hs
  have hnodes : st.nodes = delta := by simpa using hn
  have hviews : st.childViews = dv := by simpa using hv
  have hidx : subtreeIndicesList (CViews.ofList st.childViews)
      = List.range' (ctx.viewIndex + 1) k := by
    rw [subtreeIndicesList_ofList, hviews, hs]
  constructor
  · show WfView (CView.mk ctx.viewIndex ctx.viewType tvb st.nodes st.fields
      st.createStmts st.rootNodesOrAppElements (CViews.ofList st.childViews))
    refine ⟨?_, ?_, ?_, ?_⟩
    · rw [hnodes]
      have hlen : delta.map CNode.nodeIndex = List.range' 0 delta.length := by
        simpa using hi
      rw [hlen, List.range_eq_range']
    · rw [hnodes]
      simpa using hf
    · rw [hidx]
      simp
    · exact WfViews_ofList _ (by rw [hviews]; exact hw)
  · show ctx.viewIndex :: subtreeIndicesList (CViews.ofList st.childViews)
      = List.range' ctx.viewIndex (k + 1)
    rw [hidx]
    rfl

/-! Every view in a well-formed view tree has sequential node indices and
canonical fields. -/

mutual

theorem WfView_allViews : ∀ v : CView, WfView v → ∀ w ∈ allViews v,
    w.nodesOf.map CNode.nodeIndex = List.range w.nodesOf.length
    ∧ w.fieldsOf = w.nodesOf.map generatedField
  | .mk vi vt tvb nodes fields cs rs children, hwf, w, hw => by
    obtain ⟨h1, h2, _, hch⟩ := hwf
    rcases (by simpa [allViews] using hw :
        w = CView.mk vi vt tvb nodes fields cs rs children ∨ w ∈ allViewsList children) with
      heq | hmem
    · subst heq
      exact ⟨h1, h2⟩
    · exact WfViews_allViewsList children hch w hmem

theorem WfViews_allViewsList : ∀ vs : CViews, WfViews vs → ∀ w ∈ allViewsList vs,
    w.nodesOf.map CNode.nodeIndex = List.range w.nodesOf.length
    ∧ w.fieldsOf = w.nodesOf.map generatedField
  | .nil, _, w, hw => by simp [allViewsList] at hw
  | .cons v rest, hwf, w, hw => by
    rcases List.mem_append.mp (by simpa [allViewsList] using hw) with hmem | hmem
    · exact WfView_allViews v hwf.1 w hmem
    · exact WfViews_allViewsList rest hwf.2 w hmem

end

theorem buildComponentView_spec (component : CompileDirectiveMetadata)
    (template : TemplateAsts) :
    WfView (buildComponentView component template).1
    ∧ subtreeIndices (buildComponentView component template).1
        = List.range ((buildComponentView component template).2.1 + 1)
    ∧ (buildComponentView component template).2.1 = countEmbeddedAsts template := by
  have hspec := templateVisitAll_spec ⟨component, 0, getViewType component 0⟩
    template CompileNode.nullNode (initialBState [])
  have hb : buildView (⟨component, 0, getViewType component 0⟩ : BuildCtx)
      template CompileNode.nullNode []
      = templateVisitAll ⟨component, 0, getViewType component 0⟩ template
          CompileNode.nullNode (initialBState []) := by
    simp [buildView, CompileNode.isNull]
  have hcount : (buildComponentView component template).2.1
      = countEmbeddedAsts template := by
    have := hspec.2.1
    simp only [initialBState] at this
    simpa [buildComponentView, hb] using this
  have hwf := assembleView_wf ⟨component, 0, getViewType component 0⟩ [] []
    (templateVisitAll ⟨component, 0, getViewType component 0⟩ template
      CompileNode.nullNode (initialBState [])) (countEmbeddedAsts template) hspec
  refine ⟨?_, ?_, hcount⟩
  · simpa [buildComponentView, hb] using hwf.1
  · have h2 := hwf.2
    rw [List.range_eq_range']
    rw [hcount]
    simpa [buildComponentView, hb] using h2

/-! ## Claims -/


/-- Claim C5: every embedded-template visit constructs exactly one child
View Model whose nesting index is one more than the number of views
created so far, so the preorder (creation-order) indices of the built view
tree are `0, 1, 2, …`, and `buildView` returns the count of embedded views
transitively created (one per embedded template).  In particular, for a
component view with two structural directives nested two levels deep,
three View Models exist with indices 0, 1, 2 and the root build returns
2. -/
theorem claim_C5_nesting_indices (component : CompileDirectiveMetadata)
    (template : TemplateAsts) :
    subtreeIndices (buildComponentView component template).1
      = List.range ((buildComponentView component template).2.1 + 1)
    ∧ (buildComponentView component template).2.1 = countEmbeddedAsts template
    ∧ subtreeIndices (buildComponentView demoComponent demoNestedTemplate).1
        = [0, 1, 2]
    ∧ (buildComponentView demoComponent demoNestedTemplate).2.1 = 2 := by
  have hgen := buildComponentView_spec component template
  have hdemo := buildComponentView_spec demoComponent demoNestedTemplate
  have hc : countEmbeddedAsts demoNestedTemplate = 2 := by
    simp [demoNestedTemplate, countEmbeddedAsts, countEmbeddedAst]
  have hcount2 : (buildComponentView demoComponent demoNestedTemplate).2.1 = 2 :=
    hdemo.2.2.trans hc
  refine ⟨hgen.2.1, hgen.2.2, ?_, hcount2⟩
  rw [hdemo.2.1, hcount2]
  rfl

/-- Claim C8: in every built View Model (the root and every embedded view),
the node indices are exactly `0, 1, 2, …` in visitation order — each node
receives the node-list length at its creation and is appended, so indices
are unique and monotonically increasing within each view. -/
theorem claim_C8_node_index_sequence (component : CompileDirectiveMetadata)
    (template : TemplateAsts) :
    (allViews (buildComponentView component template).1).Forall
      (fun v => v.nodesOf.map CNode.nodeIndex = List.range v.nodesOf.length) := by
  have hwf := (buildComponentView_spec component template).1
  rw [List.forall_iff_forall_mem]
  intro v hv
  exact (WfView_allViews _ hwf v hv).1

/-- Claim C9: compilation is deterministic — two runs of the build
(`buildView` followed by `finishView`) on the same component metadata and
template produce identical statement sequences (the embedding threads all
builder state explicitly, so the output is a function of the inputs
alone), and the generated field names of every view are a function of
structural position: each view's field list is exactly its node list
mapped through the canonical per-kind, per-index field name. -/
theorem claim_C9_determinism (component : CompileDirectiveMetadata)
    (template : TemplateAsts) :
    compileComponent component template = compileComponent component template
    ∧ (allViews (buildComponentView component template).1).Forall
        (fun v => v.fieldsOf = v.nodesOf.map generatedField) := by
  refine ⟨rfl, ?_⟩
  have hwf := (buildComponentView_spec component template).1
  rw [List.forall_iff_forall_mem]
  intro v hv
  exact (WfView_allViews _ hwf v hv).2


/-- Claim C1: in the merged attribute set, `class` and `style` map to the
space-joined concatenation of all declared values in order (the HTML value
first, then each directive's value in declaration order), and every other
name maps to the last declared value (the last directive's, or the HTML
value when no directive declares it) — uniformly, the last element of the
ordered value list.  In particular, static `class="a"` merged with a
directive host attribute `class="b"` emits the static value `"a b"`. -/
theorem claim_C1_attr_merge (attrs : List (String × String))
    (directives : List CompileDirectiveMetadata) (name : String) :
    (jsGet (_mergeHtmlAndDirectiveAttrs (_readHtmlAttrs attrs) directives) name =
      if name = CLASS_ATTR ∨ name = STYLE_ATTR then
        (if (attrValuesInOrder attrs directives name).isEmpty then none
         else some (spaceJoin (attrValuesInOrder attrs directives name)))
      else (attrValuesInOrder attrs directives name).getLast?)
    ∧ jsGet (_mergeHtmlAndDirectiveAttrs (_readHtmlAttrs [("class", "a")])
        [{ name := "DirWithHostClass", isComponent := false, isHost := false,
           hostAttributes := [("class", "b")], entryComponents := [],
           encapsulationNative := false, ngContentCount := 0 }]) "class"
      = some "a b" := by
  constructor
  · have hnd : ((_readHtmlAttrs attrs).map Prod.fst).Nodup :=
      nodup_keys_readHtmlAttrs attrs
    have hnd2 :=
      nodup_keys_foldl_mergeDirectiveAttrs directives (_readHtmlAttrs attrs) hnd
    rw [_mergeHtmlAndDirectiveAttrs, mapToKeyValueArray, jsGet_sortEntries _ _ hnd2,
        jsGet_foldl_mergeDirectiveAttrs]
    by_cases hcs : name = CLASS_ATTR ∨ name = STYLE_ATTR
    · rw [if_pos hcs]
      cases hhtml : jsGet (_readHtmlAttrs attrs) name with
      | none =>
        rw [mergeVals_none_of_classStyle name hcs]
        simp [attrValuesInOrder, hhtml]
      | some p =>
        rw [mergeVals_some_of_classStyle name hcs]
        simp [attrValuesInOrder, hhtml]
    · rw [if_neg hcs]
      cases hflat : (directives.map (fun d => hostAttrValuesFor d name)).flatten with
      | nil =>
        simp only [mergeVals, List.foldl_nil, attrValuesInOrder, hflat, List.append_nil]
        cases jsGet (_readHtmlAttrs attrs) name <;> simp
      | cons v vs =>
        rw [mergeVals_other name hcs _ _ (by simp)]
        simp only [attrValuesInOrder, hflat]
        cases jsGet (_readHtmlAttrs attrs) name <;> simp
  · rfl

/-- Claim C7: the merged attribute array is strictly ascending in attribute
name, and the attribute-emission loop of `visitElement` produces one
`setElementAttribute` statement per merged entry in that order — and no
statements at all for an `ng-container` element. -/
theorem claim_C7_attr_statement_order (attrs : List (String × String))
    (directives : List CompileDirectiveMetadata) (renderNode : OExpr)
    (astName : String) :
    (_mergeHtmlAndDirectiveAttrs (_readHtmlAttrs attrs) directives).Pairwise
      (fun p q => p.1 < q.1)
    ∧ elementSetAttrStmts renderNode astName
        (_mergeHtmlAndDirectiveAttrs (_readHtmlAttrs attrs) directives) =
      (if astName = NG_CONTAINER_TAG then []
       else (_mergeHtmlAndDirectiveAttrs (_readHtmlAttrs attrs) directives).map
         (fun nv => setElementAttributeStmt renderNode nv.1 nv.2)) := by
  constructor
  · rw [_mergeHtmlAndDirectiveAttrs, mapToKeyValueArray]
    exact pairwise_lt_sortEntries _
      (nodup_keys_foldl_mergeDirectiveAttrs directives _ (nodup_keys_readHtmlAttrs attrs))
  · exact elementSetAttrStmts_eq renderNode astName _

/-- Claim C2: the root/projection registration is decided by the outermost
`ng-container`-only ancestor (or the node itself): `_getOuterContainerOrSelf`
reaches it through a chain of same-view `ng-container` parents and stops at
the first parent that is not one; the registered unit (the node's
app-element for view-container hosts, its render node otherwise) is pushed
onto the view's root-node list exactly when that outermost node's parent
lies outside the current view and the view is not a component's own view,
and is added to that parent's projection bucket exactly when the parent is
in-view with a component and the outermost node's template AST carries a
content-projection index. -/
theorem claim_C2_outer_container_registration (viewIdx : Nat)
    (viewType : ViewType) (n : CompileNode) :
    ContainerPath n.viewOf n (_getOuterContainerOrSelf n)
    ∧ _isNgContainer (_getOuterContainerOrSelf n).parentOf n.viewOf = false
    ∧ (∀ e, _addRootNodeAndProject viewIdx viewType n = RegAction.pushRoot e ↔
        (e = registeredUnit n
          ∧ _isRootNode viewIdx (_getOuterContainerOrSelf n).parentOf = true
          ∧ viewType ≠ ViewType.COMPONENT))
    ∧ (∀ tv tn k e,
        _addRootNodeAndProject viewIdx viewType n = RegAction.addContent tv tn k e ↔
        (_isRootNode viewIdx (_getOuterContainerOrSelf n).parentOf = false
          ∧ ((_getOuterContainerOrSelf n).parentOf.componentOf).isSome = true
          ∧ (_getOuterContainerOrSelf n).srcNgContentIndexOf = some k
          ∧ tv = (_getOuterContainerOrSelf n).parentOf.viewOf.getD 0
          ∧ tn = (_getOuterContainerOrSelf n).parentOf.nodeIndexOf
          ∧ e = registeredUnit n)) := by
  obtain ⟨hpath, hbound⟩ := outerContainerGo_path n.viewOf n
  refine ⟨hpath, hbound, ?_, ?_⟩
  · intro e
    by_cases hroot : _isRootNode viewIdx (_getOuterContainerOrSelf n).parentOf
    · by_cases hvt : viewType = ViewType.COMPONENT
      · simp [_addRootNodeAndProject, hroot, hvt]
      · simp [_addRootNodeAndProject, hroot, hvt, eq_comm]
    · have hroot2 : _isRootNode viewIdx (_getOuterContainerOrSelf n).parentOf = false := by
        simpa using hroot
      rcases hc : (_getOuterContainerOrSelf n).parentOf.componentOf with _ | comp
      · simp [_addRootNodeAndProject, hroot2, hc]
      · rcases hk : (_getOuterContainerOrSelf n).srcNgContentIndexOf with _ | k
        · simp [_addRootNodeAndProject, hroot2, hc, hk]
        · simp [_addRootNodeAndProject, hroot2, hc, hk]
  · intro tv tn k e
    by_cases hroot : _isRootNode viewIdx (_getOuterContainerOrSelf n).parentOf
    · by_cases hvt : viewType = ViewType.COMPONENT
      · simp [_addRootNodeAndProject, hroot, hvt]
      · simp [_addRootNodeAndProject, hroot, hvt]
    · have hroot2 : _isRootNode viewIdx (_getOuterContainerOrSelf n).parentOf = false := by
        simpa using hroot
      rcases hc : (_getOuterContainerOrSelf n).parentOf.componentOf with _ | comp
      · simp [_addRootNodeAndProject, hroot2, hc]
      · rcases hk : (_getOuterContainerOrSelf n).srcNgContentIndexOf with _ | k2
        · simp [_addRootNodeAndProject, hroot2, hc, hk]
        · simp only [_addRootNodeAndProject, hroot2, hc, hk, Bool.false_eq_true,
            if_false, ite_false, Bool.if_false_left]
          constructor
          · intro h
            injection h with htv htn hkk he
            exact ⟨by simp, by simp, by rw [hkk], htv.symm, htn.symm, he.symm⟩
          · rintro ⟨-, -, hkk, htv, htn, he⟩
            injection hkk with hkk
            rw [htv, htn, hkk, he]

theorem claim_C2_witness :
    _addRootNodeAndProject 5 ViewType.EMBEDDED
      (CompileNode.node
        (CompileNode.node
          (CompileNode.node (CompileNode.node CompileNode.nullNode 4 0 (some "div")
            none (OExpr.lit "pdiv") none false true) 5 0 (some "ng-container")
            (some 3) (OExpr.lit "c1") none false true) 5 1 (some "ng-container")
          none (OExpr.lit "c2") none false true) 5 2 none none (OExpr.lit "txt")
        none false false)
      = RegAction.pushRoot (OExpr.lit "txt") :=
  ((claim_C2_outer_container_registration 5 ViewType.EMBEDDED
      (CompileNode.node
        (CompileNode.node
          (CompileNode.node (CompileNode.node CompileNode.nullNode 4 0 (some "div")
            none (OExpr.lit "pdiv") none false true) 5 0 (some "ng-container")
            (some 3) (OExpr.lit "c1") none false true) 5 1 (some "ng-container")
          none (OExpr.lit "c2") none false true) 5 2 none none (OExpr.lit "txt")
        none false false)).2.2.1 (OExpr.lit "txt")).mpr
    ⟨rfl, rfl, by decide⟩

/-- Claim C10: for the empty input, `createLiteralArray([])` and
`createLiteralMap([])` return the shared `EMPTY_ARRAY` / `EMPTY_MAP`
external constant directly, leaving the view state untouched (no
pure-proxy field, no counter increment); a non-empty literal allocates the
pure-proxy field named by the current counter value, increments that
counter, and returns a call of the proxy on the values. -/
theorem claim_C10_literal_factories (s : LitState) (values : List OExpr)
    (entries : List (String × OExpr)) :
    createLiteralArray s [] = (OExpr.importE "EMPTY_ARRAY", s)
    ∧ createLiteralMap s [] = (OExpr.importE "EMPTY_MAP", s)
    ∧ (values ≠ [] →
        (createLiteralArray s values).2.literalArrayCount = s.literalArrayCount + 1
        ∧ (createLiteralArray s values).2.literalMapCount = s.literalMapCount
        ∧ (createLiteralArray s values).2.fields
            = s.fields ++ [("_arr_" ++ toString s.literalArrayCount, "pureProxy")]
        ∧ (createLiteralArray s values).1
            = OExpr.callFn (OExpr.prop OExpr.thisE
                ("_arr_" ++ toString s.literalArrayCount)) values)
    ∧ (entries ≠ [] →
        (createLiteralMap s entries).2.literalMapCount = s.literalMapCount + 1
        ∧ (createLiteralMap s entries).2.literalArrayCount = s.literalArrayCount
        ∧ (createLiteralMap s entries).2.fields
            = s.fields ++ [("_map_" ++ toString s.literalMapCount, "pureProxy")]
        ∧ (createLiteralMap s entries).1
            = OExpr.callFn (OExpr.prop OExpr.thisE
                ("_map_" ++ toString s.literalMapCount))
                (entries.map (fun e => e.2))) := by
  refine ⟨by simp [createLiteralArray], by simp [createLiteralMap], ?_, ?_⟩
  · intro h
    have hlen : values.length ≠ 0 := by simpa [List.length_eq_zero] using h
    simp [createLiteralArray, createPureProxy, hlen]
  · intro h
    have hlen : entries.length ≠ 0 := by simpa [List.length_eq_zero] using h
    simp [createLiteralMap, createPureProxy, hlen]

theorem claim_C10_witness :
    ((createLiteralArray ⟨[], [], 0, 0⟩ [OExpr.nullE]).2.literalArrayCount = 0 + 1)
    ∧ ((createLiteralMap ⟨[], [], 0, 0⟩ [("a", OExpr.nullE)]).2.literalMapCount = 0 + 1) :=
  ⟨(((claim_C10_literal_factories ⟨[], [], 0, 0⟩ [OExpr.nullE] []).2.2.1)
      (by simp)).1,
   (((claim_C10_literal_factories ⟨[], [], 0, 0⟩ [] [("a", OExpr.nullE)]).2.2.2)
      (by simp)).1⟩

/-- Claim C3: `afterChildren` appends the reset/assignment sequence
unconditionally to the static creation method exactly when the query asks
for the first result only and its collected tree contains no nested-view
subtree; every other query gets the same sequence wrapped in a conditional
on the query list's dirty flag, appended to the dynamic update method. -/
theorem claim_C3_afterChildren_static_dynamic (q : CompileQuery)
    (targetStaticMethod targetDynamicMethod : List OStmt) :
    afterChildren q targetStaticMethod targetDynamicMethod =
      if q.meta.first && !(qvalsContainNested q.values) then
        (targetStaticMethod ++ afterChildrenUpdateStmts q, targetDynamicMethod)
      else
        (targetStaticMethod,
         targetDynamicMethod ++ [OStmt.ifStmt (OExpr.prop q.queryList "dirty")
           (afterChildrenUpdateStmts q)]) := by
  simp [afterChildren, _isStatic, qvalsContainNested_eq_any]

/-- Claim C4: `addValue` appends a `setDirty` call on the (rewritten)
query-list expression to the originating view's dirty-parent-queries
method exactly when the declaration-element walk to the owning view is
non-trivial (equivalently, when its element path is non-empty); and
`createQueryValues` expands every nested-view subtree into a
`mapNestedViews` call on the nested view's declaration app-element. -/
theorem claim_C4_addValue_dirty_and_flatten (q : CompileQuery) (value : OExpr)
    (view : QView) (pre suf : QVals) (vi : Nat) (cn : String) (app : OExpr)
    (inner : QVals) :
    ((addValue q value view).2 =
      if view.idxOf = q.viewIdx then []
      else [OStmt.exprStmt (OExpr.callMethod
        (getPropertyInView q.queryList (elPathGo q.viewIdx view).length)
        "setDirty" [])])
    ∧ createQueryValues
        (QVals.append pre (QVals.cons (QueryValue.nestedV vi cn app inner) suf))
        = createQueryValues pre
          ++ mapNestedViews app cn (createQueryValues inner) :: createQueryValues suf := by
  constructor
  · by_cases h : view.idxOf = q.viewIdx
    · have hnil : elPathGo q.viewIdx view = [] := (elPathGo_eq_nil_iff _ _).mpr h
      simp [addValue, hnil, h]
    · have hne : elPathGo q.viewIdx view ≠ [] :=
        fun hh => h ((elPathGo_eq_nil_iff _ _).mp hh)
      have hpos : 0 < (elPathGo q.viewIdx view).length := List.length_pos.mpr hne
      simp [addValue, h, hpos]
  · simp [createQueryValues_append, createQueryValues, queryValueExpr]

/-- Claim C6: `getLocal` returns the reserved event-object expression for
the reserved event name regardless of template locals; otherwise it
returns the nearest binding on the declaration-view chain rewritten by the
distance traversed, and `none` when the chain has no binding. -/
theorem claim_C6_getLocal (view : LView) (name : String) (d : Nat) (e : OExpr) :
    getLocal view eventVarName = some eventExpr
    ∧ (name ≠ eventVarName → NearestBinding view name d e →
        getLocal view name = some (getPropertyInView e d))
    ∧ (name ≠ eventVarName → NoBinding view name → getLocal view name = none) := by
  refine ⟨by simp [getLocal], ?_, ?_⟩
  · intro hname hnear
    simp [getLocal, hname, getLocalGo_eq_some_of_nearest view name d e hnear]
  · intro hname hnone
    simp [getLocal, hname, getLocalGo_eq_none_of_nobinding view name hnone]

theorem claim_C6_witness :
    getLocal (LView.nested [("$event", OExpr.lit "shadow"), ("x", OExpr.lit "inner")]
        (LView.top [("y", OExpr.lit "outer")])) "$event" = some eventExpr
    ∧ getLocal (LView.nested [("$event", OExpr.lit "shadow"), ("x", OExpr.lit "inner")]
        (LView.top [("y", OExpr.lit "outer")])) "y"
        = some (getPropertyInView (OExpr.lit "outer") 1)
    ∧ getLocal (LView.nested [("$event", OExpr.lit "shadow"), ("x", OExpr.lit "inner")]
        (LView.top [("y", OExpr.lit "outer")])) "z" = none := by
  refine ⟨(claim_C6_getLocal (LView.nested [("$event", OExpr.lit "shadow"),
      ("x", OExpr.lit "inner")] (LView.top [("y", OExpr.lit "outer")])) "y" 1
      (OExpr.lit "outer")).1, ?_, ?_⟩
  · refine (claim_C6_getLocal _ "y" 1 (OExpr.lit "outer")).2.1 (by decide) ⟨?_, ?_⟩
    · intro i scope hi hsc
      have hz : i = 0 := by omega
      subst hz
      simp [scopeChain] at hsc
      subst hsc
      rfl
    · exact ⟨[("y", OExpr.lit "outer")], by simp [scopeChain], rfl⟩
  · refine (claim_C6_getLocal _ "z" 0 OExpr.nullE).2.2 (by decide) ?_
    intro scope hscope
    simp [scopeChain] at hscope
    rcases hscope with h | h <;> subst h <;> rfl

end ViewCompiler
